import Mathlib

/-! Tetris Stack: the circular queue of future pieces (`tetris.c`).

A shallow embedding of `src/tetris.c`.  The C globals `fila`, `frente`, `tras`,
`contador` and `proximo_id` become the fields of `Estado`, every C function
becomes a function on `Estado`, and the text written by `printf` becomes a list
of structured messages (`Msg`).

C `int` is taken to be 32 bits wide.  The two ways in which the C code can
leave defined behaviour, an array access outside its bounds and a signed
overflow, are modelled as the result `none`; `some _` therefore always means
"the C function ran to completion with defined behaviour".  The C remainder
operator `%` (truncating towards zero) is `Int.tmod`.

Standard input is seen through `Entrada`: what `scanf` can read at the start of
the input and whether a newline follows.  An integer that does not fit the
`int` filled by `scanf` gives `none`, and an input that ends before a newline
gives the outcome `Passo.preso`, the `getchar` loop that never ends.
-/

namespace Tetris

/-! ## Data model -/

/-- Line 6: `#define CAPACIDADE_FILA 5`. -/
def CAPACIDADE_FILA : Int := 5

/-- Lines 13-16: `struct Peca`, a type tag and a numeric identifier. -/
structure Peca where
  nome : Char
  id : Int
deriving DecidableEq, Repr

/-- Lines 19-23: the global variables of the program. -/
structure Estado where
  fila : Fin 5 → Peca
  frente : Int
  tras : Int
  contador : Int
  proximo_id : Int

/-- The globals as the C start-up code leaves them: `fila` zero-filled,
`frente = 0`, `tras = -1`, `contador = 0`, `proximo_id = 0`. -/
def inicial : Estado :=
  { fila := fun _ => { nome := Char.ofNat 0, id := 0 }
    frente := 0
    tras := -1
    contador := 0
    proximo_id := 0 }

/-- Text written to standard output, one constructor per `printf` of the source. -/
inductive Msg where
  /-- Line 66. -/
  | inicializada (capacidade : Int)
  /-- Line 76. -/
  | filaCheia (nome : Char) (id : Int)
  /-- Line 97. -/
  | filaVaziaErro
  /-- Line 108. -/
  | pecaJogada (nome : Char) (id : Int)
  /-- Line 117. -/
  | tituloEstado
  /-- Line 120. -/
  | filaVazia
  /-- Line 125. -/
  | cabecalho (capacidade : Int) (total : Int)
  /-- Line 126. -/
  | indices (frente : Int) (tras : Int)
  /-- Line 129. -/
  | rotuloFila
  /-- Line 134. -/
  | item (nome : Char) (id : Int)
  /-- Line 139. -/
  | fimDeLinha
  /-- Lines 154-156. -/
  | banner
  /-- Lines 159-164. -/
  | opcoes
  /-- Line 167. -/
  | entradaInvalida
  /-- Line 183. -/
  | novaPecaGerada (nome : Char) (id : Int)
  /-- Line 187. -/
  | despedida
  /-- Line 191. -/
  | opcaoInvalida
deriving DecidableEq, Repr

/-! ## Machine arithmetic and array access -/

/-- Smallest value of a 32-bit `int`. -/
def INT_MIN : Int := -2147483648

/-- Largest value of a 32-bit `int`. -/
def INT_MAX : Int := 2147483647

/-- Signed addition of two `int`s; `none` when the sum is not representable. -/
def soma (a b : Int) : Option Int :=
  if INT_MIN ≤ a + b ∧ a + b ≤ INT_MAX then some (a + b) else none

/-- Signed subtraction of two `int`s; `none` when the difference is not representable. -/
def subtrai (a b : Int) : Option Int :=
  if INT_MIN ≤ a - b ∧ a - b ≤ INT_MAX then some (a - b) else none

/-- The slot of `fila` designated by the `int` index `i`; `none` outside `0..4`. -/
def slot (i : Int) : Option (Fin 5) :=
  if h : 0 ≤ i ∧ i < 5 then some ⟨i.toNat, by omega⟩ else none

/-- The read `fila[i]`. -/
def ler (fila : Fin 5 → Peca) (i : Int) : Option Peca :=
  (slot i).map fila

/-- The write `fila[i] = p`. -/
def escrever (fila : Fin 5 → Peca) (i : Int) (p : Peca) : Option (Fin 5 → Peca) :=
  (slot i).map fun k => Function.update fila k p

/-! ## The functions of `tetris.c` -/

/-- Line 45: the array `tipos` of the seven type tags. -/
def tipos : List Char := ['I', 'O', 'T', 'L', 'J', 'S', 'Z']

/-- Line 46: `sizeof(tipos) / sizeof(tipos[0])`. -/
def num_tipos : Nat := tipos.length

/-- Lines 42-55: `gerarPeca`.  The argument `r` is the value returned by the call
of `rand()`, which the C library keeps in `0..RAND_MAX`. -/
def gerarPeca (r : Nat) (s : Estado) : Option (Peca × Estado) := do
  let nome ← tipos.get? (r % num_tipos)
  let id := s.proximo_id
  let proximo ← soma s.proximo_id 1
  pure ({ nome := nome, id := id }, { s with proximo_id := proximo })

/-- Lines 74-86: `enqueue`. -/
def enqueue (novaPeca : Peca) (s : Estado) : Option (Estado × List Msg) :=
  if s.contador = CAPACIDADE_FILA then
    some (s, [Msg.filaCheia novaPeca.nome novaPeca.id])
  else do
    let t ← soma s.tras 1
    let tras := Int.tmod t CAPACIDADE_FILA
    let fila ← escrever s.fila tras novaPeca
    let contador ← soma s.contador 1
    pure ({ s with tras := tras, fila := fila, contador := contador }, [])

/-- Line 94: the null piece, with the tag NUL and the id -1, returned on error. -/
def pecaNula : Peca := { nome := Char.ofNat 0, id := -1 }

/-- Lines 93-110: `dequeue`. -/
def dequeue (s : Estado) : Option (Peca × Estado × List Msg) :=
  if s.contador = 0 then
    some (pecaNula, s, [Msg.filaVaziaErro])
  else do
    let pecaRemovida ← ler s.fila s.frente
    let f ← soma s.frente 1
    let frente := Int.tmod f CAPACIDADE_FILA
    let contador ← subtrai s.contador 1
    pure (pecaRemovida, { s with frente := frente, contador := contador },
      [Msg.pecaJogada pecaRemovida.nome pecaRemovida.id])

/-- Lines 131-138: the loop of `exibirFila`, with `n` iterations left and the
cursor at `indice`; returns the pieces visited, in order. -/
def percorrer (fila : Fin 5 → Peca) : Nat → Int → Option (List Peca)
  | 0, _ => some []
  | n + 1, indice => do
    let p ← ler fila indice
    let i ← soma indice 1
    let resto ← percorrer fila n (Int.tmod i CAPACIDADE_FILA)
    pure (p :: resto)

/-- The head-to-tail snapshot of the queue: the pieces the loop of `exibirFila`
visits, starting at `frente` and running while `i < contador`. -/
def snapshot (s : Estado) : Option (List Peca) :=
  percorrer s.fila s.contador.toNat s.frente

/-- Lines 116-140: `exibirFila`; the globals are only read. -/
def exibirFila (s : Estado) : Option (List Msg) :=
  if s.contador = 0 then
    some [Msg.tituloEstado, Msg.filaVazia]
  else do
    let pecas ← snapshot s
    pure ([Msg.tituloEstado, Msg.cabecalho CAPACIDADE_FILA s.contador,
        Msg.indices s.frente s.tras, Msg.rotuloFila]
      ++ pecas.map (fun p => Msg.item p.nome p.id) ++ [Msg.fimDeLinha])

/-- Lines 63-65: the loop of `inicializarFila`, with `n` iterations left; `rs k`
is the value returned by the `k`-th coming call of `rand()`. -/
def preencher : Nat → (Nat → Nat) → Estado → Option (Estado × List Msg)
  | 0, _, s => some (s, [])
  | n + 1, rs, s => do
    let (nova, s1) ← gerarPeca (rs 0) s
    let (s2, out2) ← enqueue nova s1
    let (s3, out3) ← preencher n (fun k => rs (k + 1)) s2
    pure (s3, out2 ++ out3)

/-- Lines 61-67: `inicializarFila`. -/
def inicializarFila (rs : Nat → Nat) (s : Estado) : Option (Estado × List Msg) := do
  let (s1, out) ← preencher CAPACIDADE_FILA.toNat rs s
  pure (s1, out ++ [Msg.inicializada CAPACIDADE_FILA])

/-- The input that one iteration of the menu finds on standard input, as the call
`scanf("%d", &escolha)` of line 166 and the `getchar` loops of lines 168 and 173
see it.
* `naoNumerica`: no integer can be read (`scanf` does not return 1), and a
  newline follows what `scanf` consumed;
* `inteiro n`: after optional white space the input holds the numeral of the
  integer `n`, whatever its size, and a newline follows it, possibly after other
  characters;
* `semNovaLinha numeral`: the input ends with no newline after what `scanf`
  consumed, so `getchar` returns `EOF` from then on; `numeral` is the integer
  whose numeral `scanf` read, if there was one. -/
inductive Entrada where
  | naoNumerica
  | inteiro (escolha : Int)
  | semNovaLinha (numeral : Option Int)
deriving DecidableEq, Repr

/-- How one iteration of the `do ... while (1)` loop of `menuPrincipal` ends:
the loop goes on with the globals `s`, or the process ends by `exit(codigo)`, or
the iteration never ends because a loop `while (getchar() != '\n')` of line 168
or 173 meets the end of the input and spins for ever. -/
inductive Passo where
  | continua (s : Estado)
  | sai (codigo : Int)
  | preso

/-- Line 166: the conversion `%d` of `scanf` into the object `escolha`, a 32-bit
`int`; the behaviour is undefined when the integer read is not representable. -/
def converter (n : Int) : Option Int :=
  if INT_MIN ≤ n ∧ n ≤ INT_MAX then some n else none

/-- Lines 153-193: one iteration of the loop of `menuPrincipal`, on the input `e`;
`r` is the value `rand()` returns if the iteration calls it. -/
def iteracaoMenu (e : Entrada) (r : Nat) (s : Estado) : Option (Passo × List Msg) := do
  let tela ← exibirFila s
  let inicio := [Msg.banner] ++ tela ++ [Msg.opcoes]
  match e with
  | Entrada.naoNumerica => pure (Passo.continua s, inicio ++ [Msg.entradaInvalida])
  | Entrada.semNovaLinha none => pure (Passo.preso, inicio ++ [Msg.entradaInvalida])
  | Entrada.semNovaLinha (some n) => do
    let _ ← converter n
    pure (Passo.preso, inicio)
  | Entrada.inteiro n => do
    let escolha ← converter n
    if escolha = 1 then do
      let (_, s1, out) ← dequeue s
      pure (Passo.continua s1, inicio ++ out)
    else if escolha = 2 then do
      let (nova, s1) ← gerarPeca r s
      let (s2, out) ← enqueue nova s1
      pure (Passo.continua s2, inicio ++ out ++ [Msg.novaPecaGerada nova.nome nova.id])
    else if escolha = 0 then
      pure (Passo.sai 0, inicio ++ [Msg.despedida])
    else
      pure (Passo.continua s, inicio ++ [Msg.opcaoInvalida])

/-! ## Runs -/

/-- A call of one of the two queue operations. -/
inductive Op where
  | enq (p : Peca)
  | deq
deriving DecidableEq, Repr

/-- Runs the calls `ops` one after the other; returns the final globals and the
pieces returned by the calls of `dequeue`, in call order. -/
def executar : List Op → Estado → Option (Estado × List Peca)
  | [], s => some (s, [])
  | Op.enq p :: ops, s => do
    let (s1, _) ← enqueue p s
    executar ops s1
  | Op.deq :: ops, s => do
    let (p, s1, _) ← dequeue s
    let (s2, ps) ← executar ops s1
    pure (s2, p :: ps)

/-- An action that changes the globals, as `main` performs them: playing a piece
(line 177, `dequeue()`), or creating a piece and inserting it (lines 64 and
181-182, `enqueue(gerarPeca())`, where `rand()` returns `r`). -/
inductive Acao where
  | jogar
  | inserir (r : Nat)
deriving DecidableEq, Repr

/-- Runs the actions `acoes` one after the other; returns the pieces created by
`gerarPeca`, in creation order, and the final globals. -/
def executarAcoes : List Acao → Estado → Option (List Peca × Estado)
  | [], s => some ([], s)
  | Acao.jogar :: acoes, s => do
    let (_, s1, _) ← dequeue s
    executarAcoes acoes s1
  | Acao.inserir r :: acoes, s => do
    let (nova, s1) ← gerarPeca r s
    let (s2, _) ← enqueue nova s1
    let (ps, s3) ← executarAcoes acoes s2
    pure (nova :: ps, s3)

/-- The number of pieces that the actions `acoes` create. -/
def numInserir : List Acao → Nat
  | [] => 0
  | Acao.jogar :: acoes => numInserir acoes
  | Acao.inserir _ :: acoes => numInserir acoes + 1

/-- The globals `s` can be reached from the initial globals by calls of
`gerarPeca`, `enqueue` and `dequeue`, in any order and with any arguments, every
call having run to completion with defined behaviour. -/
inductive Alcancavel : Estado → Prop where
  | inicio : Alcancavel inicial
  | gerar (r : Nat) (s s1 : Estado) (p : Peca) :
      Alcancavel s → gerarPeca r s = some (p, s1) → Alcancavel s1
  | enq (p : Peca) (s s1 : Estado) (out : List Msg) :
      Alcancavel s → enqueue p s = some (s1, out) → Alcancavel s1
  | deq (s s1 : Estado) (p : Peca) (out : List Msg) :
      Alcancavel s → dequeue s = some (p, s1, out) → Alcancavel s1

/-- The globals `s` can be reached by `main`: `inicializarFila` on the initial
globals, then any number of iterations of the menu loop, every call having run
to completion with defined behaviour. -/
inductive AlcancavelMain : Estado → Prop where
  | inicio (rs : Nat → Nat) (s : Estado) (out : List Msg) :
      inicializarFila rs inicial = some (s, out) → AlcancavelMain s
  | passo (e : Entrada) (r : Nat) (s s1 : Estado) (out : List Msg) :
      AlcancavelMain s → iteracaoMenu e r s = some (Passo.continua s1, out) →
      AlcancavelMain s1

/-- The structural invariant of the circular queue. -/
def Inv (s : Estado) : Prop :=
  0 ≤ s.frente ∧ s.frente < 5 ∧ -1 ≤ s.tras ∧ s.tras < 5 ∧
  0 ≤ s.contador ∧ s.contador ≤ 5 ∧
  (s.tras + 1) % 5 = (s.frente + s.contador) % 5

/-- The slot of `fila` that the integer `i` designates modulo 5. -/
def casa (i : Int) : Fin 5 :=
  ⟨(i % 5).toNat, by omega⟩

/-- The `n` slots of `fila` starting at slot `i`, going round modulo 5. -/
def janela (fila : Fin 5 → Peca) (i : Int) (n : Nat) : List Peca :=
  (List.range n).map fun (k : Nat) => fila (casa (i + (k : Int)))

/-- The queued pieces from head to tail, read directly off the array: the
`contador` slots starting at `frente`. -/
def conteudo (s : Estado) : List Peca :=
  janela s.fila s.frente s.contador.toNat

/-- The invariant of the driver: the structural invariant, and the queued pieces
carry one of the seven tags and ids that increase strictly from head to tail and
lie in `0 .. proximo_id - 1`. -/
def InvMain (s : Estado) : Prop :=
  Inv s ∧ 0 ≤ s.proximo_id ∧
  (∀ p ∈ conteudo s, 0 ≤ p.id ∧ p.id < s.proximo_id ∧ p.nome ∈ tipos) ∧
  List.Pairwise (fun a b : Peca => a.id < b.id) (conteudo s)

/-- The full queue that `inicializarFila` leaves when every call of `rand()`
returns 0: five pieces `'I'` with the ids 0 to 4. -/
def exemploCheia : Estado :=
  { fila := Function.update (Function.update (Function.update (Function.update
      (Function.update inicial.fila 0 { nome := 'I', id := 0 }) 1 { nome := 'I', id := 1 })
      2 { nome := 'I', id := 2 }) 3 { nome := 'I', id := 3 }) 4 { nome := 'I', id := 4 }
    frente := 0
    tras := 4
    contador := 5
    proximo_id := 5 }

/-- An empty queue whose indices have gone round: five pieces in, five out. -/
def exemploVazia : Estado :=
  { fila := fun k => { nome := 'T', id := (k : Nat) }
    frente := 0
    tras := 4
    contador := 0
    proximo_id := 5 }

/-- The queue after the single call `enqueue` of the piece `'I' 0` on the initial globals. -/
def exemploUma : Estado :=
  { fila := Function.update inicial.fila 0 { nome := 'I', id := 0 }
    frente := 0
    tras := 0
    contador := 1
    proximo_id := 0 }

/-- A state of the queue as the program can meet it: one reached from the initial
globals by calls of `gerarPeca`, `enqueue` and `dequeue`, or, more generally, any
state whose `frente` is a slot of `fila` and whose `contador` is not negative. -/
def EstadoDaFila (s : Estado) : Prop :=
  Alcancavel s ∨ (0 ≤ s.frente ∧ s.frente < 5 ∧ 0 ≤ s.contador)

/-- Lines 116-140 as one call among others: what `exibirFila` prints, together
with the globals after the call.  The body assigns only to its locals `indice`
and `i`, so the globals after the call are the globals before it. -/
def exibirFilaChamada (s : Estado) : Option (Estado × List Msg) := do
  let out ← exibirFila s
  pure (s, out)

/-- Lines 131-138: the successive values of the cursor `indice` at the array
access of line 134, for `n` iterations starting with the cursor at `indice`. -/
def indicesVisitados : Nat → Int → List Int
  | 0, _ => []
  | n + 1, indice => indice :: indicesVisitados n (Int.tmod (indice + 1) CAPACIDADE_FILA)

/-- The number of calls of `enqueue` in the run `ops` that took the insertion
path of lines 81-83, that is, were called with `contador != CAPACIDADE_FILA`. -/
def inseridas : List Op → Estado → Option Nat
  | [], _ => some 0
  | Op.enq p :: ops, s => do
    let (s1, _) ← enqueue p s
    let n ← inseridas ops s1
    pure (if s.contador = CAPACIDADE_FILA then n else n + 1)
  | Op.deq :: ops, s => do
    let (_, s1, _) ← dequeue s
    inseridas ops s1

/-- The queue of `exemploCheia` after five iterations of the menu with option 1:
every piece played, `frente` back at 0. -/
def exemploEsvaziada : Estado :=
  { exemploCheia with contador := 0 }

/-- The full queue of `exemploCheia` once the id counter has reached `INT_MAX`. -/
def exemploMax : Estado :=
  { exemploCheia with proximo_id := 2147483647 }

/-! ## Arithmetic and array lemmas -/

theorem soma_eq_some {a b : Int} (h1 : INT_MIN ≤ a + b) (h2 : a + b ≤ INT_MAX) :
    soma a b = some (a + b) := by
  simp [soma, h1, h2]

theorem subtrai_eq_some {a b : Int} (h1 : INT_MIN ≤ a - b) (h2 : a - b ≤ INT_MAX) :
    subtrai a b = some (a - b) := by
  simp [subtrai, h1, h2]

theorem tmod_cinco {a : Int} (h : 0 ≤ a) : Int.tmod a CAPACIDADE_FILA = a % 5 := by
  unfold CAPACIDADE_FILA
  exact Int.tmod_eq_emod h (by decide)

theorem slot_eq_casa {i : Int} (h0 : 0 ≤ i) (h5 : i < 5) : slot i = some (casa i) := by
  unfold slot casa
  rw [dif_pos ⟨h0, h5⟩]
  congr 2
  omega

theorem casa_val (i : Int) : ((casa i : Fin 5) : Nat) = (i % 5).toNat := rfl

theorem casa_emod (i : Int) : casa (i % 5) = casa i := by
  apply Fin.ext
  simp only [casa_val]
  omega

theorem casa_eq_iff {i j : Int} : casa i = casa j ↔ i % 5 = j % 5 := by
  constructor
  · intro h
    have h1 := congrArg Fin.val h
    simp only [casa_val] at h1
    omega
  · intro h
    apply Fin.ext
    simp only [casa_val]
    omega

theorem casa_fin (k : Fin 5) : casa (k : Nat) = k := by
  apply Fin.ext
  have := k.isLt
  simp only [casa_val]
  omega

theorem ler_eq {fila : Fin 5 → Peca} {i : Int} (h0 : 0 ≤ i) (h5 : i < 5) :
    ler fila i = some (fila (casa i)) := by
  simp [ler, slot_eq_casa h0 h5]

theorem escrever_eq {fila : Fin 5 → Peca} {i : Int} (p : Peca) (h0 : 0 ≤ i) (h5 : i < 5) :
    escrever fila i p = some (Function.update fila (casa i) p) := by
  simp [escrever, slot_eq_casa h0 h5]

/-! ## The traversal -/

theorem janela_zero (fila : Fin 5 → Peca) (i : Int) : janela fila i 0 = [] := rfl

theorem janela_succ (fila : Fin 5 → Peca) (i : Int) (n : Nat) :
    janela fila i (n + 1) = fila (casa i) :: janela fila (i + 1) n := by
  unfold janela
  rw [List.range_succ_eq_map, List.map_cons, List.map_map]
  congr 1
  · simp
  · apply List.map_congr_left
    intro k _
    simp only [Function.comp, Nat.succ_eq_add_one]
    congr 2
    push_cast
    omega

theorem janela_snoc (fila : Fin 5 → Peca) (i : Int) (n : Nat) :
    janela fila i (n + 1) = janela fila i n ++ [fila (casa (i + n))] := by
  unfold janela
  rw [List.range_succ, List.map_append]
  rfl

theorem janela_emod (fila : Fin 5 → Peca) (i : Int) (n : Nat) :
    janela fila (i % 5) n = janela fila i n := by
  unfold janela
  apply List.map_congr_left
  intro k _
  congr 1
  rw [casa_eq_iff]
  omega

theorem janela_length (fila : Fin 5 → Peca) (i : Int) (n : Nat) :
    (janela fila i n).length = n := by
  simp [janela]

theorem percorrer_eq (fila : Fin 5 → Peca) (n : Nat) :
    ∀ i : Int, 0 ≤ i → i < 5 → percorrer fila n i = some (janela fila i n) := by
  induction n with
  | zero => intro i _ _; rfl
  | succ n ih =>
    intro i h0 h5
    have hs : soma i 1 = some (i + 1) :=
      soma_eq_some (by unfold INT_MIN; omega) (by unfold INT_MAX; omega)
    have ht : Int.tmod (i + 1) CAPACIDADE_FILA = (i + 1) % 5 := tmod_cinco (by omega)
    have hr := ih ((i + 1) % 5) (by omega) (by omega)
    simp only [percorrer, ler_eq h0 h5, hs, ht, hr, Option.bind_eq_bind, Option.some_bind,
      Option.pure_def, janela_emod, janela_succ]

theorem snapshot_eq {s : Estado} (hi : Inv s) : snapshot s = some (conteudo s) :=
  percorrer_eq s.fila s.contador.toNat s.frente hi.1 hi.2.1

theorem janela_update (fila : Fin 5 → Peca) (p : Peca) (i j : Int) (n : Nat)
    (h : ∀ k : Nat, k < n → (i + k) % 5 ≠ j % 5) :
    janela (Function.update fila (casa j) p) i n = janela fila i n := by
  unfold janela
  apply List.map_congr_left
  intro k hk
  have hk1 : k < n := List.mem_range.mp hk
  have hne : casa (i + k) ≠ casa j := fun e => h k hk1 (casa_eq_iff.mp e)
  simp [Function.update_noteq hne]

/-! ## The two queue operations under the structural invariant -/

theorem inv_inicial : Inv inicial := by
  simp [Inv, inicial]

theorem enqueue_inv {s : Estado} (p : Peca) (hi : Inv s) (hc : s.contador < 5) :
    ∃ s1, enqueue p s = some (s1, []) ∧ Inv s1 ∧ s1.frente = s.frente ∧
      s1.tras = (s.tras + 1) % 5 ∧ s1.contador = s.contador + 1 ∧
      s1.proximo_id = s.proximo_id ∧
      s1.fila = Function.update s.fila (casa (s.tras + 1)) p ∧
      conteudo s1 = conteudo s ++ [p] := by
  obtain ⟨hf0, hf5, ht0, ht5, hc0, _, hm⟩ := hi
  have hne : s.contador ≠ CAPACIDADE_FILA := by unfold CAPACIDADE_FILA; omega
  have hs : soma s.tras 1 = some (s.tras + 1) :=
    soma_eq_some (by unfold INT_MIN; omega) (by unfold INT_MAX; omega)
  have hs2 : soma s.contador 1 = some (s.contador + 1) :=
    soma_eq_some (by unfold INT_MIN; omega) (by unfold INT_MAX; omega)
  have ht : Int.tmod (s.tras + 1) CAPACIDADE_FILA = (s.tras + 1) % 5 := tmod_cinco (by omega)
  have hw : escrever s.fila ((s.tras + 1) % 5) p =
      some (Function.update s.fila (casa ((s.tras + 1) % 5)) p) :=
    escrever_eq p (by omega) (by omega)
  rw [casa_emod] at hw
  refine ⟨{ s with tras := (s.tras + 1) % 5,
                   fila := Function.update s.fila (casa (s.tras + 1)) p,
                   contador := s.contador + 1 }, ?_, ?_, rfl, rfl, rfl, rfl, rfl, ?_⟩
  · simp only [enqueue, if_neg hne, hs, ht, hw, hs2, Option.bind_eq_bind, Option.some_bind,
      Option.pure_def]
  · refine ⟨hf0, hf5, ?_, ?_, ?_, ?_, ?_⟩ <;> simp only <;> omega
  · have hn : (s.contador + 1).toNat = s.contador.toNat + 1 := by omega
    have hcasa : casa (s.tras + 1) = casa (s.frente + s.contador.toNat) := by
      rw [casa_eq_iff]; omega
    simp only [conteudo, hn]
    rw [janela_snoc, hcasa, Function.update_same, janela_update]
    intro k hk
    omega

theorem dequeue_inv {s : Estado} (hi : Inv s) (hc : 0 < s.contador) :
    ∃ s1, dequeue s = some (s.fila (casa s.frente), s1,
        [Msg.pecaJogada (s.fila (casa s.frente)).nome (s.fila (casa s.frente)).id]) ∧
      Inv s1 ∧ s1.frente = (s.frente + 1) % 5 ∧ s1.tras = s.tras ∧
      s1.contador = s.contador - 1 ∧ s1.proximo_id = s.proximo_id ∧ s1.fila = s.fila ∧
      conteudo s = s.fila (casa s.frente) :: conteudo s1 := by
  obtain ⟨hf0, hf5, ht0, ht5, _, hc5, hm⟩ := hi
  have hne : s.contador ≠ 0 := by omega
  have hs : soma s.frente 1 = some (s.frente + 1) :=
    soma_eq_some (by unfold INT_MIN; omega) (by unfold INT_MAX; omega)
  have hs2 : subtrai s.contador 1 = some (s.contador - 1) :=
    subtrai_eq_some (by unfold INT_MIN; omega) (by unfold INT_MAX; omega)
  have ht : Int.tmod (s.frente + 1) CAPACIDADE_FILA = (s.frente + 1) % 5 :=
    tmod_cinco (by omega)
  refine ⟨{ s with frente := (s.frente + 1) % 5, contador := s.contador - 1 },
    ?_, ?_, rfl, rfl, rfl, rfl, rfl, ?_⟩
  · simp only [dequeue, if_neg hne, ler_eq hf0 hf5, hs, ht, hs2, Option.bind_eq_bind,
      Option.some_bind, Option.pure_def]
  · refine ⟨?_, ?_, ht0, ht5, ?_, ?_, ?_⟩ <;> simp only <;> omega
  · have hn : s.contador.toNat = (s.contador - 1).toNat + 1 := by omega
    simp only [conteudo]
    rw [hn, janela_succ, janela_emod]

theorem enqueue_cheia (p : Peca) {s : Estado} (hc : s.contador = 5) :
    enqueue p s = some (s, [Msg.filaCheia p.nome p.id]) := by
  simp [enqueue, CAPACIDADE_FILA, hc]

theorem dequeue_vazia {s : Estado} (hc : s.contador = 0) :
    dequeue s = some (pecaNula, s, [Msg.filaVaziaErro]) := by
  simp [dequeue, hc]

theorem gerarPeca_tag (r : Nat) : ∃ c, tipos.get? (r % num_tipos) = some c ∧ c ∈ tipos := by
  have h : r % num_tipos < tipos.length := Nat.mod_lt _ (by decide)
  exact ⟨tipos.get ⟨_, h⟩, List.get?_eq_get h, List.get_mem _ _ _⟩

theorem gerarPeca_eq (r : Nat) {s : Estado} (h : s.proximo_id < INT_MAX)
    (h0 : INT_MIN ≤ s.proximo_id + 1) :
    ∃ c, c ∈ tipos ∧ gerarPeca r s =
      some ({ nome := c, id := s.proximo_id }, { s with proximo_id := s.proximo_id + 1 }) := by
  obtain ⟨c, hc, hm⟩ := gerarPeca_tag r
  have hs : soma s.proximo_id 1 = some (s.proximo_id + 1) := soma_eq_some h0 (by omega)
  exact ⟨c, hm, by simp only [gerarPeca, hc, hs, Option.bind_eq_bind, Option.some_bind,
    Option.pure_def]⟩

theorem gerarPeca_some {r : Nat} {s s1 : Estado} {p : Peca} (h : gerarPeca r s = some (p, s1)) :
    p.id = s.proximo_id ∧ s1.proximo_id = s.proximo_id + 1 ∧ s.proximo_id < INT_MAX ∧
      s1.fila = s.fila ∧ s1.frente = s.frente ∧ s1.tras = s.tras ∧
      s1.contador = s.contador ∧ p.nome ∈ tipos := by
  obtain ⟨c, hc, hm⟩ := gerarPeca_tag r
  simp only [gerarPeca, hc, soma, Option.bind_eq_bind, Option.some_bind, Option.pure_def] at h
  split at h
  · rename_i hr
    simp only [Option.some_bind, Option.some.injEq, Prod.mk.injEq] at h
    obtain ⟨hp, hs⟩ := h
    subst hp hs
    refine ⟨rfl, rfl, ?_, rfl, rfl, rfl, rfl, hm⟩
    omega
  · simp at h

theorem enqueue_total {s : Estado} (p : Peca) (hi : Inv s) :
    ∃ s1 out, enqueue p s = some (s1, out) ∧ Inv s1 ∧ s1.proximo_id = s.proximo_id := by
  by_cases hc : s.contador = 5
  · exact ⟨s, _, enqueue_cheia p hc, hi, rfl⟩
  · obtain ⟨s1, he, hi1, _, _, _, hp, _⟩ :=
      enqueue_inv p hi (by have := hi.2.2.2.2.2.1; omega)
    exact ⟨s1, _, he, hi1, hp⟩

theorem dequeue_total {s : Estado} (hi : Inv s) :
    ∃ p s1 out, dequeue s = some (p, s1, out) ∧ Inv s1 ∧ s1.proximo_id = s.proximo_id := by
  by_cases hc : s.contador = 0
  · exact ⟨_, s, _, dequeue_vazia hc, hi, rfl⟩
  · obtain ⟨s1, he, hi1, _, _, _, hp, _⟩ := dequeue_inv hi (by have := hi.2.2.2.2.1; omega)
    exact ⟨_, s1, _, he, hi1, hp⟩

theorem enqueue_preserva {s s1 : Estado} {p : Peca} {out : List Msg} (hi : Inv s)
    (h : enqueue p s = some (s1, out)) : Inv s1 := by
  obtain ⟨s2, out2, he, hi2, _⟩ := enqueue_total p hi
  rw [he] at h
  simp only [Option.some.injEq, Prod.mk.injEq] at h
  exact h.1 ▸ hi2

theorem dequeue_preserva {s s1 : Estado} {p : Peca} {out : List Msg} (hi : Inv s)
    (h : dequeue s = some (p, s1, out)) : Inv s1 := by
  obtain ⟨p2, s2, out2, he, hi2, _⟩ := dequeue_total hi
  rw [he] at h
  simp only [Option.some.injEq, Prod.mk.injEq] at h
  exact h.2.1 ▸ hi2

theorem gerarPeca_preserva {r : Nat} {s s1 : Estado} {p : Peca} (hi : Inv s)
    (h : gerarPeca r s = some (p, s1)) : Inv s1 := by
  obtain ⟨_, _, _, _, hf, ht, hc, _⟩ := gerarPeca_some h
  unfold Inv
  rw [hf, ht, hc]
  exact hi

theorem alcancavel_inv {s : Estado} (h : Alcancavel s) : Inv s := by
  induction h with
  | inicio => exact inv_inicial
  | gerar r s s1 p _ hg ih => exact gerarPeca_preserva ih hg
  | enq p s s1 out _ he ih => exact enqueue_preserva ih he
  | deq s s1 p out _ hd ih => exact dequeue_preserva ih hd

/-! ## Runs of queue operations -/

theorem executar_total (ops : List Op) :
    ∀ s, Inv s → ∃ s1 ps, executar ops s = some (s1, ps) ∧ Inv s1 := by
  induction ops with
  | nil => intro s hi; exact ⟨s, [], rfl, hi⟩
  | cons op ops ih =>
    intro s hi
    cases op with
    | enq p =>
      obtain ⟨s1, out, he, hi1, _⟩ := enqueue_total p hi
      obtain ⟨s2, ps, hx, hi2⟩ := ih s1 hi1
      exact ⟨s2, ps, by simp [executar, he, hx], hi2⟩
    | deq =>
      obtain ⟨p, s1, out, hd, hi1, _⟩ := dequeue_total hi
      obtain ⟨s2, ps, hx, hi2⟩ := ih s1 hi1
      exact ⟨s2, p :: ps, by simp [executar, hd, hx], hi2⟩

theorem executar_enqs (ps : List Peca) :
    ∀ s, Inv s → s.contador + ps.length ≤ 5 →
      ∃ s1, Inv s1 ∧ conteudo s1 = conteudo s ++ ps ∧
        s1.contador = s.contador + ps.length ∧
        ∀ resto, executar (ps.map Op.enq ++ resto) s = executar resto s1 := by
  induction ps with
  | nil => intro s hi _; exact ⟨s, hi, by simp, by simp, fun _ => rfl⟩
  | cons p ps ih =>
    intro s hi hn
    simp only [List.length_cons, Nat.cast_add, Nat.cast_one] at hn
    obtain ⟨s1, he, hi1, _, _, hc1, _, _, hq1⟩ :=
      enqueue_inv p hi (by have := hi.2.2.2.2.1; omega)
    obtain ⟨s2, hi2, hq2, hc2, hx⟩ := ih s1 hi1 (by omega)
    refine ⟨s2, hi2, ?_, ?_, ?_⟩
    · rw [hq2, hq1]; simp
    · rw [hc2, hc1]; simp only [List.length_cons, Nat.cast_add, Nat.cast_one]; omega
    · intro resto
      rw [← hx resto]
      simp [executar, he]

theorem executar_deqs (n : Nat) :
    ∀ s, Inv s → s.contador = n →
      ∃ s1, Inv s1 ∧ s1.contador = 0 ∧
        executar (List.replicate n Op.deq) s = some (s1, conteudo s) := by
  induction n with
  | zero =>
    intro s hi hc
    refine ⟨s, hi, by simpa using hc, ?_⟩
    simp [executar, conteudo, hc, janela]
  | succ n ih =>
    intro s hi hc
    obtain ⟨s1, hd, hi1, _, _, hc1, _, _, hq⟩ := dequeue_inv hi (by omega)
    obtain ⟨s2, hi2, hc2, hx⟩ := ih s1 hi1 (by rw [hc1, hc]; push_cast; omega)
    refine ⟨s2, hi2, hc2, ?_⟩
    simp [List.replicate_succ, executar, hd, hx, hq]

/-! ## Runs of driver actions -/

theorem gerar_enqueue_ok (r : Nat) {s : Estado} (hi : Inv s) (hc : s.contador < 5)
    (h0 : 0 ≤ s.proximo_id) (hm : s.proximo_id < INT_MAX) :
    ∃ c s1 s2, c ∈ tipos ∧ gerarPeca r s = some (Peca.mk c s.proximo_id, s1) ∧
      enqueue (Peca.mk c s.proximo_id) s1 = some (s2, []) ∧ Inv s2 ∧
      conteudo s2 = conteudo s ++ [Peca.mk c s.proximo_id] ∧ s2.frente = s.frente ∧
      s2.tras = (s.tras + 1) % 5 ∧ s2.contador = s.contador + 1 ∧
      s2.proximo_id = s.proximo_id + 1 := by
  obtain ⟨c, hct, hg⟩ := gerarPeca_eq r hm (by unfold INT_MIN; omega)
  have hi1 : Inv { s with proximo_id := s.proximo_id + 1 } := hi
  obtain ⟨s2, he, hi2, hf, ht, hc2, hp, _, hq⟩ := enqueue_inv (Peca.mk c s.proximo_id) hi1 hc
  exact ⟨c, _, s2, hct, hg, he, hi2, hq, hf, ht, hc2, hp⟩

theorem executarAcoes_ok (acoes : List Acao) :
    ∀ s, Inv s → 0 ≤ s.proximo_id → s.proximo_id + numInserir acoes ≤ INT_MAX →
      ∃ ps s1, executarAcoes acoes s = some (ps, s1) ∧ Inv s1 ∧
        ps.map Peca.id = (List.range (numInserir acoes)).map
          (fun k : Nat => s.proximo_id + (k : Int)) ∧
        s1.proximo_id = s.proximo_id + numInserir acoes := by
  induction acoes with
  | nil => intro s hi _ _; exact ⟨[], s, rfl, hi, by simp [numInserir], by simp [numInserir]⟩
  | cons a acoes ih =>
    intro s hi h0 hm
    cases a with
    | jogar =>
      simp only [numInserir] at hm ⊢
      obtain ⟨p, s1, out, hd, hi1, hp⟩ := dequeue_total hi
      obtain ⟨ps, s2, hx, hi2, hids, hp2⟩ := ih s1 hi1 (by omega) (by omega)
      refine ⟨ps, s2, by simp [executarAcoes, hd, hx], hi2, ?_, by omega⟩
      rw [hids, hp]
    | inserir r =>
      simp only [numInserir, Nat.cast_add, Nat.cast_one] at hm ⊢
      have hlt : s.proximo_id < INT_MAX := by omega
      obtain ⟨c, hct, hg⟩ := gerarPeca_eq r hlt (by unfold INT_MIN; omega)
      have hi1 : Inv { s with proximo_id := s.proximo_id + 1 } := hi
      obtain ⟨s2, out, he, hi2, hp2⟩ := enqueue_total (Peca.mk c s.proximo_id) hi1
      simp only at hp2
      obtain ⟨ps, s3, hx, hi3, hids, hp3⟩ := ih s2 hi2 (by omega) (by omega)
      refine ⟨Peca.mk c s.proximo_id :: ps, s3, by simp [executarAcoes, hg, he, hx], hi3,
        ?_, by omega⟩
      rw [List.range_succ_eq_map, List.map_cons, List.map_cons, hids, List.map_map, hp2]
      congr 1
      · simp
      · apply List.map_congr_left
        intro k _
        simp only [Function.comp, Nat.succ_eq_add_one]
        push_cast
        omega

theorem numInserir_replicate (n r : Nat) :
    numInserir (List.replicate n (Acao.inserir r)) = n := by
  induction n with
  | zero => rfl
  | succ n ih => simp [List.replicate_succ, numInserir, ih]

theorem preencher_ok (n : Nat) :
    ∀ (rs : Nat → Nat) (s : Estado), Inv s → s.contador + n ≤ 5 → 0 ≤ s.proximo_id →
      s.proximo_id + n ≤ INT_MAX →
      ∃ s1 ps, preencher n rs s = some (s1, []) ∧ Inv s1 ∧ conteudo s1 = conteudo s ++ ps ∧
        ps.map Peca.id = (List.range n).map (fun k : Nat => s.proximo_id + (k : Int)) ∧
        s1.frente = s.frente ∧ (s1.tras + 1) % 5 = (s.tras + 1 + n) % 5 ∧
        (0 < n → 0 ≤ s1.tras) ∧ s1.contador = s.contador + n ∧
        s1.proximo_id = s.proximo_id + n := by
  induction n with
  | zero =>
    intro rs s hi _ _ _
    exact ⟨s, [], rfl, hi, by simp, by simp, rfl, by simp, by simp, by simp, by simp⟩
  | succ n ih =>
    intro rs s hi hc h0 hm
    simp only [Nat.cast_add, Nat.cast_one] at hc hm ⊢
    obtain ⟨c, s1, s2, _, hg, he, hi2, hq2, hf2, ht2, hc2, hp2⟩ :=
      gerar_enqueue_ok (rs 0) hi (by omega) h0 (by omega)
    obtain ⟨s3, ps, hx, hi3, hq3, hids, hf3, ht3, ht0, hc3, hp3⟩ :=
      ih (fun k => rs (k + 1)) s2 hi2 (by omega) (by omega) (by omega)
    refine ⟨s3, Peca.mk c s.proximo_id :: ps, by simp [preencher, hg, he, hx], hi3, ?_, ?_,
      by omega, by omega, ?_, by omega, by omega⟩
    · rw [hq3, hq2]; simp
    · rw [List.range_succ_eq_map, List.map_cons, List.map_cons, hids, List.map_map, hp2]
      congr 1
      · simp
      · apply List.map_congr_left
        intro k _
        simp only [Function.comp, Nat.succ_eq_add_one]
        push_cast
        omega
    · intro _
      by_cases hn : 0 < n
      · exact ht0 hn
      · have hn0 : n = 0 := by omega
        subst hn0
        simp only [preencher, Option.some.injEq, Prod.mk.injEq] at hx
        rw [← hx.1, ht2]
        omega

/-! ## The invariant of the driver -/

theorem invMain_inicial : InvMain inicial := by
  refine ⟨inv_inicial, by simp [inicial], ?_, ?_⟩ <;> simp [conteudo, inicial, janela]

theorem gerar_enqueue_main {r : Nat} {s s1 s2 : Estado} {p : Peca} {out : List Msg}
    (hi : InvMain s) (hg : gerarPeca r s = some (p, s1)) (he : enqueue p s1 = some (s2, out)) :
    InvMain s2 := by
  obtain ⟨hinv, hp0, hids, hpw⟩ := hi
  obtain ⟨hid, hprox, _, hfila, hf, ht, hc, hnome⟩ := gerarPeca_some hg
  have hinv1 : Inv s1 := gerarPeca_preserva hinv hg
  have hq1 : conteudo s1 = conteudo s := by simp only [conteudo, hfila, hf, hc]
  by_cases hc5 : s1.contador = 5
  · rw [enqueue_cheia p hc5] at he
    simp only [Option.some.injEq, Prod.mk.injEq] at he
    rw [← he.1]
    refine ⟨hinv1, by omega, ?_, by rw [hq1]; exact hpw⟩
    intro q hq
    rw [hq1] at hq
    obtain ⟨h1, h2, h3⟩ := hids q hq
    exact ⟨h1, by omega, h3⟩
  · obtain ⟨s3, he3, hinv3, _, _, _, hprox3, _, hq3⟩ :=
      enqueue_inv p hinv1 (by have := hinv1.2.2.2.2.2.1; omega)
    rw [he3] at he
    simp only [Option.some.injEq, Prod.mk.injEq] at he
    rw [← he.1]
    refine ⟨hinv3, by omega, ?_, ?_⟩
    · intro q hq
      rw [hq3, hq1, List.mem_append, List.mem_singleton] at hq
      rcases hq with hq | hq
      · obtain ⟨h1, h2, h3⟩ := hids q hq
        exact ⟨h1, by omega, h3⟩
      · subst hq
        exact ⟨by omega, by omega, hnome⟩
    · rw [hq3, hq1, List.pairwise_append]
      refine ⟨hpw, List.pairwise_singleton _ _, ?_⟩
      intro a ha b hb
      rw [List.mem_singleton] at hb
      subst hb
      have := (hids a ha).2.1
      omega

theorem dequeue_main {s s1 : Estado} {p : Peca} {out : List Msg}
    (hi : InvMain s) (hd : dequeue s = some (p, s1, out)) : InvMain s1 := by
  obtain ⟨hinv, hp0, hids, hpw⟩ := hi
  by_cases hc0 : s.contador = 0
  · rw [dequeue_vazia hc0] at hd
    simp only [Option.some.injEq, Prod.mk.injEq] at hd
    rw [← hd.2.1]
    exact ⟨hinv, hp0, hids, hpw⟩
  · obtain ⟨s2, hd2, hinv2, _, _, _, hprox2, _, hq2⟩ :=
      dequeue_inv hinv (by have := hinv.2.2.2.2.1; omega)
    rw [hd2] at hd
    simp only [Option.some.injEq, Prod.mk.injEq] at hd
    rw [← hd.2.1]
    rw [hq2] at hids hpw
    refine ⟨hinv2, by omega, ?_, (List.pairwise_cons.mp hpw).2⟩
    intro q hq
    rw [hprox2]
    exact hids q (List.mem_cons_of_mem _ hq)

theorem preencher_main (n : Nat) :
    ∀ (rs : Nat → Nat) (s s1 : Estado) (out : List Msg),
      InvMain s → preencher n rs s = some (s1, out) → InvMain s1 := by
  induction n with
  | zero =>
    intro rs s s1 out hi h
    simp only [preencher, Option.some.injEq, Prod.mk.injEq] at h
    exact h.1 ▸ hi
  | succ n ih =>
    intro rs s s1 out hi h
    simp only [preencher, Option.bind_eq_bind, Option.bind_eq_some, Option.pure_def,
      Option.some.injEq, Prod.mk.injEq, Prod.exists] at h
    obtain ⟨p, sa, hg, sb, outb, he, sc, outc, hp, hs, _⟩ := h
    subst hs
    exact ih _ _ _ _ (gerar_enqueue_main hi hg he) hp

theorem converter_some {n m : Int} (h : converter n = some m) :
    m = n ∧ INT_MIN ≤ n ∧ n ≤ INT_MAX := by
  unfold converter at h
  split at h
  · rename_i hr
    simp only [Option.some.injEq] at h
    exact ⟨h.symm, hr⟩
  · simp at h

theorem iteracaoMenu_continua {e : Entrada} {r : Nat} {s s1 : Estado} {out : List Msg}
    (h : iteracaoMenu e r s = some (Passo.continua s1, out)) :
    s1 = s ∨ (∃ p o, dequeue s = some (p, s1, o)) ∨
      ∃ nova sa o, gerarPeca r s = some (nova, sa) ∧ enqueue nova sa = some (s1, o) := by
  simp only [iteracaoMenu, Option.bind_eq_bind, Option.bind_eq_some] at h
  obtain ⟨tela, _, h⟩ := h
  cases e with
  | naoNumerica =>
    simp only [Option.pure_def, Option.some.injEq, Prod.mk.injEq, Passo.continua.injEq] at h
    exact Or.inl h.1.symm
  | semNovaLinha numeral =>
    cases numeral with
    | none => simp at h
    | some n => simp [Option.bind_eq_some] at h
  | inteiro n =>
    simp only [Option.bind_eq_bind, Option.bind_eq_some] at h
    obtain ⟨escolha, _, h⟩ := h
    split at h
    · simp only [Option.bind_eq_bind, Option.bind_eq_some, Option.pure_def,
        Option.some.injEq, Prod.mk.injEq, Passo.continua.injEq, Prod.exists] at h
      obtain ⟨p, sa, outa, hd, hs, _⟩ := h
      subst hs
      exact Or.inr (Or.inl ⟨p, outa, hd⟩)
    · split at h
      · simp only [Option.bind_eq_bind, Option.bind_eq_some, Option.pure_def,
          Option.some.injEq, Prod.mk.injEq, Passo.continua.injEq, Prod.exists] at h
        obtain ⟨p, sa, hg, sb, outb, he, hs, _⟩ := h
        subst hs
        exact Or.inr (Or.inr ⟨p, sa, outb, hg, he⟩)
      · split at h
        · simp at h
        · simp only [Option.pure_def, Option.some.injEq, Prod.mk.injEq,
            Passo.continua.injEq] at h
          exact Or.inl h.1.symm

theorem alcancavelMain_inv {s : Estado} (h : AlcancavelMain s) : InvMain s := by
  induction h with
  | inicio rs s out hini =>
    simp only [inicializarFila, Option.bind_eq_bind, Option.bind_eq_some, Option.pure_def,
      Option.some.injEq, Prod.mk.injEq, Prod.exists] at hini
    obtain ⟨sa, outa, hp, hs, _⟩ := hini
    subst hs
    exact preencher_main _ _ _ _ _ invMain_inicial hp
  | passo e r s s1 out _ hit ih =>
    rcases iteracaoMenu_continua hit with hs | ⟨p, o, hd⟩ | ⟨nova, sa, o, hg, he⟩
    · exact hs ▸ ih
    · exact dequeue_main ih hd
    · exact gerar_enqueue_main ih hg he

theorem enqueue_exemploUma :
    enqueue { nome := 'I', id := 0 } inicial = some (exemploUma, []) := rfl

theorem alcancavel_exemploUma : Alcancavel exemploUma :=
  Alcancavel.enq _ _ _ _ Alcancavel.inicio enqueue_exemploUma

theorem inicializarFila_exemploCheia :
    inicializarFila (fun _ => 0) inicial = some (exemploCheia, [Msg.inicializada 5]) := rfl

theorem alcancavelMain_exemploCheia : AlcancavelMain exemploCheia :=
  AlcancavelMain.inicio _ _ _ inicializarFila_exemploCheia

theorem gerar_enqueue_alcancavel {r : Nat} {s s1 s2 : Estado} {p : Peca} {out : List Msg}
    (hs : Alcancavel s) (hg : gerarPeca r s = some (p, s1))
    (he : enqueue p s1 = some (s2, out)) : Alcancavel s2 :=
  Alcancavel.enq _ _ _ _ (Alcancavel.gerar _ _ _ _ hs hg) he

theorem preencher_alcancavel (n : Nat) :
    ∀ (rs : Nat → Nat) (s s1 : Estado) (out : List Msg),
      Alcancavel s → preencher n rs s = some (s1, out) → Alcancavel s1 := by
  induction n with
  | zero =>
    intro rs s s1 out hi h
    simp only [preencher, Option.some.injEq, Prod.mk.injEq] at h
    exact h.1 ▸ hi
  | succ n ih =>
    intro rs s s1 out hi h
    simp only [preencher, Option.bind_eq_bind, Option.bind_eq_some, Option.pure_def,
      Option.some.injEq, Prod.mk.injEq, Prod.exists] at h
    obtain ⟨p, sa, hg, sb, outb, he, sc, outc, hp, hs, _⟩ := h
    subst hs
    exact ih _ _ _ _ (gerar_enqueue_alcancavel hi hg he) hp

theorem alcancavelMain_alcancavel {s : Estado} (h : AlcancavelMain s) : Alcancavel s := by
  induction h with
  | inicio rs s out hini =>
    simp only [inicializarFila, Option.bind_eq_bind, Option.bind_eq_some, Option.pure_def,
      Option.some.injEq, Prod.mk.injEq, Prod.exists] at hini
    obtain ⟨sa, outa, hp, hs, _⟩ := hini
    subst hs
    exact preencher_alcancavel _ _ _ _ _ Alcancavel.inicio hp
  | passo e r s s1 out _ hit ih =>
    rcases iteracaoMenu_continua hit with hs | ⟨p, o, hd⟩ | ⟨nova, sa, o, hg, he⟩
    · exact hs ▸ ih
    · exact Alcancavel.deq _ _ _ _ ih hd
    · exact gerar_enqueue_alcancavel ih hg he

theorem inicializarFila_ok (rs : Nat → Nat) :
    ∃ s ps, inicializarFila rs inicial = some (s, [Msg.inicializada 5]) ∧ Inv s ∧
      s.contador = 5 ∧ s.frente = 0 ∧ s.tras = 4 ∧ s.proximo_id = 5 ∧
      snapshot s = some ps ∧ ps.length = 5 ∧ ps.map Peca.id = [0, 1, 2, 3, 4] := by
  obtain ⟨s, ps, hx, hi, hq, hids, hf, ht, ht0, hc, hp⟩ :=
    preencher_ok 5 rs inicial inv_inicial (by simp [inicial]) (by simp [inicial])
      (by simp [inicial, INT_MAX])
  have hq0 : conteudo inicial = [] := rfl
  rw [hq0, List.nil_append] at hq
  have hids5 : ps.map Peca.id = [0, 1, 2, 3, 4] := by rw [hids]; rfl
  have hlen : ps.length = 5 := by
    have := congrArg List.length hids5
    simpa using this
  have ht4 : s.tras = 4 := by
    have h1 := ht0 (by decide)
    have h2 := hi.2.2.2.1
    simp only [inicial] at ht
    omega
  refine ⟨s, ps, ?_, hi, by simpa [inicial] using hc, by simpa [inicial] using hf, ht4,
    by simpa [inicial] using hp, by rw [snapshot_eq hi, hq], hlen, hids5⟩
  have h5 : CAPACIDADE_FILA.toNat = 5 := rfl
  simp only [inicializarFila, h5, hx, Option.bind_eq_bind, Option.some_bind, Option.pure_def,
    List.nil_append]
  rfl

/-! ## The claims -/

/-- C1. FIFO order: for every list of at most five pieces, enqueueing them one
after the other on the empty initial queue and then calling `dequeue` as many
times returns exactly those pieces, in the order in which they were enqueued. -/
theorem fifo_order (ps : List Peca) (h : ps.length ≤ 5) :
    ∃ s, executar (ps.map Op.enq ++ List.replicate ps.length Op.deq) inicial = some (s, ps) := by
  obtain ⟨s1, hi1, hq1, hc1, hx⟩ :=
    executar_enqs ps inicial inv_inicial (by simp only [inicial]; omega)
  obtain ⟨s2, _, _, hd⟩ := executar_deqs ps.length s1 hi1 (by rw [hc1]; simp [inicial])
  refine ⟨s2, ?_⟩
  rw [hx, hd, hq1]
  simp [conteudo, inicial, janela]

theorem fifo_order_witness :
    [Peca.mk 'I' 0, Peca.mk 'O' 1, Peca.mk 'T' 2].length ≤ 5 ∧
    ∃ s, executar ([Peca.mk 'I' 0, Peca.mk 'O' 1, Peca.mk 'T' 2].map Op.enq ++
      List.replicate [Peca.mk 'I' 0, Peca.mk 'O' 1, Peca.mk 'T' 2].length Op.deq) inicial =
      some (s, [Peca.mk 'I' 0, Peca.mk 'O' 1, Peca.mk 'T' 2]) :=
  ⟨by decide, fifo_order _ (by decide)⟩

/-- C2. Count bound: every finite sequence of `enqueue` and `dequeue` calls applied
to the initial globals runs to completion, and after each of its calls (after
every prefix `ops.take k`) `contador` lies between 0 and `CAPACIDADE_FILA`. -/
theorem contador_bound (ops : List Op) (k : Nat) :
    ∃ s ps, executar (ops.take k) inicial = some (s, ps) ∧
      0 ≤ s.contador ∧ s.contador ≤ CAPACIDADE_FILA := by
  obtain ⟨s, ps, hx, hi⟩ := executar_total (ops.take k) inicial inv_inicial
  exact ⟨s, ps, hx, hi.2.2.2.2.1, hi.2.2.2.2.2.1⟩

/-- C3. Rejection on full: in every state with `contador = 5`, `enqueue p` takes
the queue-full branch (its only output is the rejection message of line 76) and
leaves `contador`, `frente`, `tras`, `proximo_id` and every slot of `fila` unchanged. -/
theorem enqueue_full_rejected (s : Estado) (p : Peca) (h : s.contador = 5) :
    ∃ s1, enqueue p s = some (s1, [Msg.filaCheia p.nome p.id]) ∧
      s1.contador = s.contador ∧ s1.frente = s.frente ∧ s1.tras = s.tras ∧
      s1.proximo_id = s.proximo_id ∧ ∀ k, s1.fila k = s.fila k :=
  ⟨s, enqueue_cheia p h, rfl, rfl, rfl, rfl, fun _ => rfl⟩

theorem enqueue_full_rejected_witness :
    exemploCheia.contador = 5 ∧
    ∃ s1, enqueue (Peca.mk 'Z' 9) exemploCheia = some (s1, [Msg.filaCheia 'Z' 9]) ∧
      s1.contador = exemploCheia.contador ∧ s1.frente = exemploCheia.frente ∧
      s1.tras = exemploCheia.tras ∧ s1.proximo_id = exemploCheia.proximo_id ∧
      ∀ k, s1.fila k = exemploCheia.fila k :=
  ⟨rfl, enqueue_full_rejected exemploCheia (Peca.mk 'Z' 9) rfl⟩

/-- C4. Rejection on empty: in every state with `contador = 0`, whatever `frente`
and `tras` are, `dequeue` returns the null piece (tag NUL, id -1) and leaves
`contador`, `frente`, `tras`, `proximo_id` and every slot of `fila` unchanged. -/
theorem dequeue_empty_rejected (s : Estado) (h : s.contador = 0) :
    ∃ p s1, dequeue s = some (p, s1, [Msg.filaVaziaErro]) ∧
      p.nome = Char.ofNat 0 ∧ p.id = -1 ∧
      s1.contador = s.contador ∧ s1.frente = s.frente ∧ s1.tras = s.tras ∧
      s1.proximo_id = s.proximo_id ∧ ∀ k, s1.fila k = s.fila k :=
  ⟨pecaNula, s, dequeue_vazia h, rfl, rfl, rfl, rfl, rfl, rfl, fun _ => rfl⟩

theorem dequeue_empty_rejected_witness :
    exemploVazia.contador = 0 ∧
    ∃ p s1, dequeue exemploVazia = some (p, s1, [Msg.filaVaziaErro]) ∧
      p.nome = Char.ofNat 0 ∧ p.id = -1 ∧
      s1.contador = exemploVazia.contador ∧ s1.frente = exemploVazia.frente ∧
      s1.tras = exemploVazia.tras ∧ s1.proximo_id = exemploVazia.proximo_id ∧
      ∀ k, s1.fila k = exemploVazia.fila k :=
  ⟨rfl, dequeue_empty_rejected exemploVazia rfl⟩

/-- C5, as stated, fails once the 32-bit counter is exhausted: the first
2147483647 creations from `proximo_id = 0` succeed and leave
`proximo_id = 2147483647 = INT_MAX`; the next call of `gerarPeca` (k = 2147483647)
executes `proximo_id++` on `INT_MAX`, a signed overflow, so it has no defined
result and cannot leave `proximo_id = k + 1`. -/
theorem created_ids_overflow :
    ∃ ps s, executarAcoes (List.replicate 2147483647 (Acao.inserir 0)) inicial = some (ps, s) ∧
      s.proximo_id = 2147483647 ∧ gerarPeca 0 s = none := by
  have hn := numInserir_replicate 2147483647 0
  obtain ⟨ps, s, hx, _, _, hp⟩ :=
    executarAcoes_ok (List.replicate 2147483647 (Acao.inserir 0)) inicial inv_inicial
      (le_refl _) (by rw [hn]; decide)
  rw [hn] at hp
  have hp1 : s.proximo_id = 2147483647 := by
    rw [hp]; rfl
  refine ⟨ps, s, hx, hp1, ?_⟩
  have hs : soma s.proximo_id 1 = none := by
    rw [hp1]; rfl
  obtain ⟨c, hc, _⟩ := gerarPeca_tag 0
  simp only [gerarPeca, hc, hs, Option.bind_eq_bind, Option.some_bind, Option.none_bind]

/-- C5 (amended). Id uniqueness while the counter lasts: in every run from the
initial globals (`proximo_id = 0`) that creates at most 2147483647 pieces, with
any values of `rand()` and any interleaving of `dequeue`, every call runs to
completion, the k-th piece created has id k whether `enqueue` then accepts or
rejects it, `proximo_id` ends equal to the number of pieces created, and no two
created pieces share an id. -/
theorem created_ids_unique (acoes : List Acao) (h : numInserir acoes ≤ 2147483647) :
    ∃ ps s1, executarAcoes acoes inicial = some (ps, s1) ∧
      ps.length = numInserir acoes ∧
      ps.map Peca.id = (List.range ps.length).map (fun k : Nat => (k : Int)) ∧
      s1.proximo_id = ps.length ∧ (ps.map Peca.id).Nodup := by
  obtain ⟨ps, s1, hx, _, hids, hp⟩ :=
    executarAcoes_ok acoes inicial inv_inicial (le_refl _)
      (by simp only [inicial, INT_MAX]; omega)
  have hlen : ps.length = numInserir acoes := by
    have := congrArg List.length hids
    simpa using this
  have hids1 : ps.map Peca.id = (List.range ps.length).map (fun k : Nat => (k : Int)) := by
    rw [hids, hlen]
    simp [inicial]
  refine ⟨ps, s1, hx, hlen, hids1, by rw [hp, hlen]; simp [inicial], ?_⟩
  rw [hids1]
  exact List.Nodup.map (fun a b hab => by simpa using hab) (List.nodup_range _)

theorem created_ids_unique_witness :
    numInserir [Acao.inserir 3, Acao.jogar, Acao.inserir 9, Acao.inserir 14] ≤ 2147483647 ∧
    ∃ ps s1, executarAcoes [Acao.inserir 3, Acao.jogar, Acao.inserir 9, Acao.inserir 14]
        inicial = some (ps, s1) ∧
      ps.length = numInserir [Acao.inserir 3, Acao.jogar, Acao.inserir 9, Acao.inserir 14] ∧
      ps.map Peca.id = (List.range ps.length).map (fun k : Nat => (k : Int)) ∧
      s1.proximo_id = ps.length ∧ (ps.map Peca.id).Nodup :=
  ⟨by decide, created_ids_unique _ (by decide)⟩

/-- C6. Enqueue success postcondition: in every reachable state with
`contador < 5`, `enqueue p` sets `tras` to `(tras + 1) mod 5`, stores `p` in
`fila[tras]`, adds one to `contador`, leaves `frente`, `proximo_id` and all other
slots unchanged, prints nothing, and the head-to-tail snapshot afterwards is the
snapshot before with `p` appended at the end. -/
theorem enqueue_success (s : Estado) (p : Peca) (hr : Alcancavel s) (hc : s.contador < 5) :
    ∃ s1 antes, enqueue p s = some (s1, []) ∧
      s1.tras = (s.tras + 1) % 5 ∧ ler s1.fila s1.tras = some p ∧
      s1.contador = s.contador + 1 ∧ s1.frente = s.frente ∧
      s1.proximo_id = s.proximo_id ∧
      (∀ k : Fin 5, ((k : Nat) : Int) ≠ s1.tras → s1.fila k = s.fila k) ∧
      snapshot s = some antes ∧ snapshot s1 = some (antes ++ [p]) := by
  have hi := alcancavel_inv hr
  obtain ⟨s1, he, hi1, hf, ht, hc1, hp, hfila, hq⟩ := enqueue_inv p hi hc
  refine ⟨s1, conteudo s, he, ht, ?_, hc1, hf, hp, ?_, snapshot_eq hi, ?_⟩
  · rw [ler_eq (by omega) (by omega), hfila, ht, casa_emod, Function.update_same]
  · intro k hk
    rw [hfila]
    apply Function.update_noteq
    intro e
    apply hk
    have hv := congrArg Fin.val e
    simp only [casa_val] at hv
    have := hi.2.2.1
    omega
  · rw [snapshot_eq hi1, hq]

theorem enqueue_success_witness :
    Alcancavel exemploUma ∧ exemploUma.contador < 5 ∧
    ∃ s1 antes, enqueue (Peca.mk 'O' 1) exemploUma = some (s1, []) ∧
      s1.tras = (exemploUma.tras + 1) % 5 ∧ ler s1.fila s1.tras = some (Peca.mk 'O' 1) ∧
      s1.contador = exemploUma.contador + 1 ∧ s1.frente = exemploUma.frente ∧
      s1.proximo_id = exemploUma.proximo_id ∧
      (∀ k : Fin 5, ((k : Nat) : Int) ≠ s1.tras → s1.fila k = exemploUma.fila k) ∧
      snapshot exemploUma = some antes ∧ snapshot s1 = some (antes ++ [Peca.mk 'O' 1]) :=
  ⟨alcancavel_exemploUma, by decide,
    enqueue_success exemploUma (Peca.mk 'O' 1) alcancavel_exemploUma (by decide)⟩

/-- C7. Dequeue success postcondition: in every reachable state with
`contador > 0`, `dequeue` returns `fila[frente]`, which is the first element of
the head-to-tail snapshot, sets `frente` to `(frente + 1) mod 5`, subtracts one
from `contador`, leaves `tras`, `proximo_id` and `fila` unchanged, and the
snapshot afterwards is the previous snapshot without its first element; in the
states reached by `main` the returned piece does not occur in that snapshot. -/
theorem dequeue_success (s : Estado) (hr : Alcancavel s) (hc : 0 < s.contador) :
    ∃ p s1 depois, dequeue s = some (p, s1, [Msg.pecaJogada p.nome p.id]) ∧
      ler s.fila s.frente = some p ∧
      s1.frente = (s.frente + 1) % 5 ∧ s1.contador = s.contador - 1 ∧
      s1.tras = s.tras ∧ s1.proximo_id = s.proximo_id ∧ s1.fila = s.fila ∧
      snapshot s = some (p :: depois) ∧ snapshot s1 = some depois ∧
      (AlcancavelMain s → p ∉ depois) := by
  have hi := alcancavel_inv hr
  obtain ⟨s1, hd, hi1, hf, ht, hc1, hp, hfila, hq⟩ := dequeue_inv hi hc
  refine ⟨_, s1, conteudo s1, hd, ler_eq hi.1 hi.2.1, hf, hc1, ht, hp, hfila, ?_,
    snapshot_eq hi1, ?_⟩
  · rw [snapshot_eq hi, hq]
  · intro hm hmem
    have hpw := (alcancavelMain_inv hm).2.2.2
    rw [hq] at hpw
    have := (List.pairwise_cons.mp hpw).1 _ hmem
    omega

theorem dequeue_success_witness :
    Alcancavel exemploCheia ∧ 0 < exemploCheia.contador ∧ AlcancavelMain exemploCheia ∧
    ∃ p s1 depois, dequeue exemploCheia = some (p, s1, [Msg.pecaJogada p.nome p.id]) ∧
      ler exemploCheia.fila exemploCheia.frente = some p ∧
      s1.frente = (exemploCheia.frente + 1) % 5 ∧ s1.contador = exemploCheia.contador - 1 ∧
      s1.tras = exemploCheia.tras ∧ s1.proximo_id = exemploCheia.proximo_id ∧
      s1.fila = exemploCheia.fila ∧
      snapshot exemploCheia = some (p :: depois) ∧ snapshot s1 = some depois ∧
      (AlcancavelMain exemploCheia → p ∉ depois) :=
  ⟨alcancavelMain_alcancavel alcancavelMain_exemploCheia, by decide,
    alcancavelMain_exemploCheia,
    dequeue_success exemploCheia (alcancavelMain_alcancavel alcancavelMain_exemploCheia)
      (by decide)⟩

/-- C8. Initialization scenario: whatever values `rand()` returns, `inicializarFila`
on the initial globals runs to completion, printing only the confirmation of
line 66, and ends with `contador = 5`, `frente = 0`, `tras = 4`, `proximo_id = 5`
and a head-to-tail snapshot of exactly five pieces whose ids are 0, 1, 2, 3, 4. -/
theorem inicializarFila_full (rs : Nat → Nat) :
    ∃ s ps, inicializarFila rs inicial = some (s, [Msg.inicializada 5]) ∧
      s.contador = 5 ∧ s.frente = 0 ∧ s.tras = 4 ∧ s.proximo_id = 5 ∧
      snapshot s = some ps ∧ ps.length = 5 ∧ ps.map Peca.id = [0, 1, 2, 3, 4] := by
  obtain ⟨s, ps, hini, _, h⟩ := inicializarFila_ok rs
  exact ⟨s, ps, hini, h⟩

/-- C9. End-to-end scenario: on the freshly initialized queue one `dequeue`
returns the piece with id 0 and leaves `contador = 4`; the following
`enqueue(gerarPeca())` creates and inserts a piece with id 5, brings `contador`
back to 5, and the snapshot ids from head to tail are then 1, 2, 3, 4, 5. -/
theorem end_to_end (rs : Nat → Nat) (r : Nat) :
    ∃ s0 out0 p s1 out1 nova s2 s3 ps,
      inicializarFila rs inicial = some (s0, out0) ∧
      dequeue s0 = some (p, s1, out1) ∧ p.id = 0 ∧ s1.contador = 4 ∧
      gerarPeca r s1 = some (nova, s2) ∧ enqueue nova s2 = some (s3, []) ∧
      nova.id = 5 ∧ s3.contador = 5 ∧
      snapshot s3 = some ps ∧ ps.map Peca.id = [1, 2, 3, 4, 5] := by
  obtain ⟨s0, ps0, hini, hi0, hc0, _, _, hp0, hsnap0, _, hids0⟩ := inicializarFila_ok rs
  obtain ⟨s1, hd, hi1, _, _, hc1, hp1, _, hq1⟩ := dequeue_inv hi0 (by omega)
  rw [snapshot_eq hi0, Option.some.injEq] at hsnap0
  rw [hsnap0] at hq1
  subst hq1
  simp only [List.map_cons, List.cons.injEq] at hids0
  obtain ⟨c, s2, s3, _, hg, he, hi3, hq3, _, _, hc3, _⟩ :=
    gerar_enqueue_ok r hi1 (by omega) (by omega) (by unfold INT_MAX; omega)
  rw [hp1, hp0] at hg he hq3
  refine ⟨s0, _, _, s1, _, _, s2, s3, conteudo s3, hini, hd, hids0.1, by omega, hg, he, rfl,
    by omega, snapshot_eq hi3, ?_⟩
  rw [hq3, List.map_append, hids0.2]
  rfl

/-- C10. Wrap-around scenario: from the empty initial state, whose `tras` is -1,
five enqueues leave `tras = 4`; one dequeue and one more enqueue then leave
`tras = (-1 + 1) mod 5 = 0` and `frente = 1`, and the new piece is in slot 0. -/
theorem wrap_around (p1 p2 p3 p4 p5 p6 : Peca) :
    ∃ s5 s,
      executar [Op.enq p1, Op.enq p2, Op.enq p3, Op.enq p4, Op.enq p5] inicial =
        some (s5, []) ∧ s5.tras = 4 ∧
      executar [Op.enq p1, Op.enq p2, Op.enq p3, Op.enq p4, Op.enq p5, Op.deq, Op.enq p6]
        inicial = some (s, [p1]) ∧
      s.tras = (inicial.tras + 1) % 5 ∧ s.tras = 0 ∧ s.frente = 1 ∧ ler s.fila 0 = some p6 :=
  ⟨_, _, rfl, rfl, rfl, rfl, rfl, rfl, rfl⟩

/-! ## Rendering and the menu loop -/

theorem estadoDaFila_frente {s : Estado} (h : EstadoDaFila s) :
    0 ≤ s.frente ∧ s.frente < 5 ∧ 0 ≤ s.contador := by
  rcases h with h | h
  · have hi := alcancavel_inv h
    exact ⟨hi.1, hi.2.1, hi.2.2.2.2.1⟩
  · exact h

theorem estadoDaFila_exemploCheia : EstadoDaFila exemploCheia :=
  Or.inl (alcancavelMain_alcancavel alcancavelMain_exemploCheia)

theorem snapshot_eq_frente {s : Estado} (h0 : 0 ≤ s.frente) (h5 : s.frente < 5) :
    snapshot s = some (conteudo s) :=
  percorrer_eq s.fila s.contador.toNat s.frente h0 h5

theorem janela_get (fila : Fin 5 → Peca) (i : Int) (n k : Nat) (hk : k < n) :
    (janela fila i n).get? k = some (fila (casa (i + k))) := by
  simp [janela, List.getElem?_range hk]

theorem exibirFila_cheia {s : Estado} (h0 : 0 ≤ s.frente) (h5 : s.frente < 5)
    (hc : s.contador ≠ 0) :
    exibirFila s = some ([Msg.tituloEstado, Msg.cabecalho CAPACIDADE_FILA s.contador,
        Msg.indices s.frente s.tras, Msg.rotuloFila]
      ++ (conteudo s).map (fun p => Msg.item p.nome p.id) ++ [Msg.fimDeLinha]) := by
  simp only [exibirFila, if_neg hc, snapshot_eq_frente h0 h5, Option.bind_eq_bind,
    Option.some_bind, Option.pure_def]

theorem exibirFila_vazia {s : Estado} (hc : s.contador = 0) :
    exibirFila s = some [Msg.tituloEstado, Msg.filaVazia] := by
  simp only [exibirFila, if_pos hc]

theorem exibirFila_total {s : Estado} (h0 : 0 ≤ s.frente) (h5 : s.frente < 5) :
    ∃ tela, exibirFila s = some tela := by
  by_cases hc : s.contador = 0
  · exact ⟨_, exibirFila_vazia hc⟩
  · exact ⟨_, exibirFila_cheia h0 h5 hc⟩

theorem iteracaoMenu_inicio {e : Entrada} {r : Nat} {s : Estado} {p : Passo} {out : List Msg}
    (h : iteracaoMenu e r s = some (p, out)) :
    ∃ tela resto, exibirFila s = some tela ∧
      out = [Msg.banner] ++ tela ++ [Msg.opcoes] ++ resto := by
  simp only [iteracaoMenu, Option.bind_eq_bind, Option.bind_eq_some] at h
  obtain ⟨tela, ht, h⟩ := h
  refine ⟨tela, ?_⟩
  cases e with
  | naoNumerica =>
    simp only [Option.pure_def, Option.some.injEq, Prod.mk.injEq] at h
    exact ⟨_, ht, h.2.symm⟩
  | semNovaLinha numeral =>
    cases numeral with
    | none =>
      simp only [Option.pure_def, Option.some.injEq, Prod.mk.injEq] at h
      exact ⟨_, ht, h.2.symm⟩
    | some n =>
      simp only [Option.bind_eq_bind, Option.bind_eq_some, Option.pure_def,
        Option.some.injEq, Prod.mk.injEq] at h
      obtain ⟨_, _, _, ho⟩ := h
      exact ⟨[], ht, by rw [← ho]; simp⟩
  | inteiro n =>
    simp only [Option.bind_eq_bind, Option.bind_eq_some] at h
    obtain ⟨escolha, _, h⟩ := h
    split at h
    · simp only [Option.bind_eq_bind, Option.bind_eq_some, Option.pure_def,
        Option.some.injEq, Prod.mk.injEq, Prod.exists] at h
      obtain ⟨_, _, o, _, _, ho⟩ := h
      exact ⟨o, ht, ho.symm⟩
    · split at h
      · simp only [Option.bind_eq_bind, Option.bind_eq_some, Option.pure_def,
          Option.some.injEq, Prod.mk.injEq, Prod.exists] at h
        obtain ⟨nova, _, _, _, o, _, _, ho⟩ := h
        exact ⟨o ++ [Msg.novaPecaGerada nova.nome nova.id], ht, by rw [← ho]; simp⟩
      · split at h
        · simp only [Option.pure_def, Option.some.injEq, Prod.mk.injEq] at h
          exact ⟨_, ht, h.2.symm⟩
        · simp only [Option.pure_def, Option.some.injEq, Prod.mk.injEq] at h
          exact ⟨_, ht, h.2.symm⟩

theorem converter_um : converter 1 = some 1 := rfl

theorem converter_dois : converter 2 = some 2 := rfl

theorem iteracaoMenu_jogar (r : Nat) {s s1 : Estado} {p : Peca} {tela out : List Msg}
    (ht : exibirFila s = some tela) (hd : dequeue s = some (p, s1, out)) :
    iteracaoMenu (Entrada.inteiro 1) r s =
      some (Passo.continua s1, [Msg.banner] ++ tela ++ [Msg.opcoes] ++ out) := by
  simp [iteracaoMenu, ht, hd, converter_um]

theorem iteracaoMenu_inserir {r : Nat} {s s1 s2 : Estado} {nova : Peca} {tela out : List Msg}
    (ht : exibirFila s = some tela) (hg : gerarPeca r s = some (nova, s1))
    (he : enqueue nova s1 = some (s2, out)) :
    iteracaoMenu (Entrada.inteiro 2) r s =
      some (Passo.continua s2, [Msg.banner] ++ tela ++ [Msg.opcoes] ++ out ++
        [Msg.novaPecaGerada nova.nome nova.id]) := by
  simp [iteracaoMenu, ht, hg, he, converter_dois]

theorem tipos_nao_nulos : ∀ c ∈ tipos, c ≠ Char.ofNat 0 := by decide

theorem gerarPeca_ok (r : Nat) {s : Estado} (hmin : INT_MIN ≤ s.proximo_id)
    (hmax : s.proximo_id < INT_MAX) :
    ∃ c, tipos.get? (r % 7) = some c ∧ c ∈ tipos ∧ gerarPeca r s =
      some ({ nome := c, id := s.proximo_id }, { s with proximo_id := s.proximo_id + 1 }) := by
  obtain ⟨c, hc, hm⟩ := gerarPeca_tag r
  have hs : soma s.proximo_id 1 = some (s.proximo_id + 1) :=
    soma_eq_some (by omega) (by omega)
  exact ⟨c, hc, hm, by simp only [gerarPeca, hc, hs, Option.bind_eq_bind, Option.some_bind,
    Option.pure_def]⟩

theorem gerarPeca_exemploMax (r : Nat) : gerarPeca r exemploMax = none := by
  obtain ⟨c, hc, _⟩ := gerarPeca_tag r
  have hs : soma exemploMax.proximo_id 1 = none := rfl
  simp only [gerarPeca, hc, hs, Option.bind_eq_bind, Option.some_bind, Option.none_bind]

theorem inserir_cheia (r : Nat) {s : Estado} (hi : Inv s) (hc : s.contador = 5)
    (hmin : INT_MIN ≤ s.proximo_id) (hmax : s.proximo_id < INT_MAX) :
    ∃ c tela, tipos.get? (r % 7) = some c ∧ c ∈ tipos ∧ exibirFila s = some tela ∧
      iteracaoMenu (Entrada.inteiro 2) r s =
        some (Passo.continua { s with proximo_id := s.proximo_id + 1 },
          [Msg.banner] ++ tela ++ [Msg.opcoes] ++ [Msg.filaCheia c s.proximo_id] ++
            [Msg.novaPecaGerada c s.proximo_id]) := by
  obtain ⟨c, hget, hm, hg⟩ := gerarPeca_ok r hmin hmax
  obtain ⟨tela, ht⟩ := exibirFila_total hi.1 hi.2.1
  have hc1 : ({ s with proximo_id := s.proximo_id + 1 } : Estado).contador = 5 := hc
  exact ⟨c, tela, hget, hm, ht, iteracaoMenu_inserir ht hg (enqueue_cheia _ hc1)⟩

theorem inv_exemploCheia (n : Int) : Inv { exemploCheia with proximo_id := n } := by
  simp [Inv, exemploCheia]

theorem alcancavelMain_cheia_prox (n : Nat) :
    5 + (n : Int) ≤ INT_MAX →
      AlcancavelMain { exemploCheia with proximo_id := 5 + (n : Int) } := by
  induction n with
  | zero => intro _; exact alcancavelMain_exemploCheia
  | succ n ih =>
    intro h
    have hlt : 5 + (n : Int) < INT_MAX := by push_cast at h; omega
    have hge : INT_MIN ≤ 5 + (n : Int) := by unfold INT_MIN; omega
    obtain ⟨c, tela, _, _, _, hit⟩ :=
      inserir_cheia 0 (inv_exemploCheia (5 + (n : Int))) rfl hge hlt
    have hst := AlcancavelMain.passo _ _ _ _ _ (ih (by omega)) hit
    have he : (5 : Int) + ((n + 1 : Nat) : Int) = 5 + (n : Int) + 1 := by push_cast; omega
    rw [he]
    exact hst

theorem alcancavelMain_exemploMax : AlcancavelMain exemploMax :=
  alcancavelMain_cheia_prox 2147483642 (by decide)

theorem alcancavelMain_exemploEsvaziada : AlcancavelMain exemploEsvaziada := by
  have h1 : AlcancavelMain { exemploCheia with frente := 1, contador := 4 } :=
    AlcancavelMain.passo (Entrada.inteiro 1) 0 _ _ _ alcancavelMain_exemploCheia rfl
  have h2 : AlcancavelMain { exemploCheia with frente := 2, contador := 3 } :=
    AlcancavelMain.passo (Entrada.inteiro 1) 0 _ _ _ h1 rfl
  have h3 : AlcancavelMain { exemploCheia with frente := 3, contador := 2 } :=
    AlcancavelMain.passo (Entrada.inteiro 1) 0 _ _ _ h2 rfl
  have h4 : AlcancavelMain { exemploCheia with frente := 4, contador := 1 } :=
    AlcancavelMain.passo (Entrada.inteiro 1) 0 _ _ _ h3 rfl
  exact AlcancavelMain.passo (Entrada.inteiro 1) 0 _ _ _ h4 rfl

/-! ## Index safety -/

theorem indicesVisitados_bound (n : Nat) :
    ∀ i : Int, 0 ≤ i → i < 5 → ∀ j ∈ indicesVisitados n i, 0 ≤ j ∧ j < 5 := by
  induction n with
  | zero => intro i _ _ j hj; simp [indicesVisitados] at hj
  | succ n ih =>
    intro i h0 h5 j hj
    simp only [indicesVisitados, List.mem_cons] at hj
    rcases hj with hj | hj
    · subst hj; exact ⟨h0, h5⟩
    · have ht : Int.tmod (i + 1) CAPACIDADE_FILA = (i + 1) % 5 := tmod_cinco (by omega)
      rw [ht] at hj
      exact ih ((i + 1) % 5) (by omega) (by omega) j hj

theorem ler_some_range {fila : Fin 5 → Peca} {i : Int} {p : Peca} (h : ler fila i = some p) :
    0 ≤ i ∧ i < 5 := by
  unfold ler slot at h
  by_cases hr : 0 ≤ i ∧ i < 5
  · exact hr
  · rw [dif_neg hr] at h
    simp at h

theorem percorrer_indices (fila : Fin 5 → Peca) (n : Nat) :
    ∀ i : Int, percorrer fila n i = (indicesVisitados n i).mapM (ler fila) := by
  induction n with
  | zero => intro i; rfl
  | succ n ih =>
    intro i
    simp only [percorrer, indicesVisitados, List.mapM_cons, Option.bind_eq_bind,
      Option.pure_def]
    cases hl : ler fila i with
    | none => rfl
    | some p =>
      obtain ⟨h0, h5⟩ := ler_some_range hl
      have hs : soma i 1 = some (i + 1) :=
        soma_eq_some (by unfold INT_MIN; omega) (by unfold INT_MAX; omega)
      simp only [Option.some_bind, hs, ih]

theorem executar_seguro (ops : List Op) :
    ∀ s, Inv s → ∃ s1 ps n, executar ops s = some (s1, ps) ∧ inseridas ops s = some n ∧
      Inv s1 ∧ ((0 ≤ s.tras ∨ 0 < n) → 0 ≤ s1.tras) := by
  induction ops with
  | nil =>
    intro s hi
    refine ⟨s, [], 0, rfl, rfl, hi, ?_⟩
    intro h
    rcases h with h | h
    · exact h
    · exact absurd h (by decide)
  | cons op ops ih =>
    intro s hi
    cases op with
    | enq p =>
      by_cases hc : s.contador = 5
      · obtain ⟨s2, ps, n, hx, hn, hi2, ht⟩ := ih s hi
        have hc1 : s.contador = CAPACIDADE_FILA := hc
        refine ⟨s2, ps, n, ?_, ?_, hi2, ht⟩
        · simp [executar, enqueue_cheia p hc, hx]
        · simp [inseridas, enqueue_cheia p hc, hn, hc1]
      · obtain ⟨s1, he, hi1, _, ht1, _⟩ :=
          enqueue_inv p hi (by have := hi.2.2.2.2.2.1; omega)
        obtain ⟨s2, ps, n, hx, hn, hi2, ht⟩ := ih s1 hi1
        have hc1 : ¬ s.contador = CAPACIDADE_FILA := hc
        refine ⟨s2, ps, n + 1, ?_, ?_, hi2, fun _ => ht (Or.inl (by omega))⟩
        · simp [executar, he, hx]
        · simp [inseridas, he, hn, hc1]
    | deq =>
      obtain ⟨p, s1, out, hd, hi1, _⟩ := dequeue_total hi
      have ht1 : s1.tras = s.tras := by
        by_cases hc : s.contador = 0
        · rw [dequeue_vazia hc] at hd
          simp only [Option.some.injEq, Prod.mk.injEq] at hd
          rw [← hd.2.1]
        · obtain ⟨s3, hd3, _, _, ht3, _⟩ := dequeue_inv hi (by have := hi.2.2.2.2.1; omega)
          rw [hd3] at hd
          simp only [Option.some.injEq, Prod.mk.injEq] at hd
          rw [← hd.2.1, ht3]
      obtain ⟨s2, ps, n, hx, hn, hi2, ht⟩ := ih s1 hi1
      refine ⟨s2, p :: ps, n, ?_, ?_, hi2, ?_⟩
      · simp [executar, hd, hx]
      · simp [inseridas, hd, hn]
      · rw [ht1] at ht
        exact ht

/-! ## Ids consumed by rejected insertions -/

theorem enqueue_proximo {s s1 : Estado} {p : Peca} {out : List Msg}
    (h : enqueue p s = some (s1, out)) : s1.proximo_id = s.proximo_id := by
  unfold enqueue at h
  split at h
  · simp only [Option.some.injEq, Prod.mk.injEq] at h
    rw [← h.1]
  · simp only [Option.bind_eq_bind, Option.bind_eq_some, Option.pure_def, Option.some.injEq,
      Prod.mk.injEq] at h
    obtain ⟨_, _, _, _, _, _, hs, _⟩ := h
    rw [← hs]

theorem dequeue_proximo {s s1 : Estado} {p : Peca} {out : List Msg}
    (h : dequeue s = some (p, s1, out)) : s1.proximo_id = s.proximo_id := by
  unfold dequeue at h
  split at h
  · simp only [Option.some.injEq, Prod.mk.injEq] at h
    rw [← h.2.1]
  · simp only [Option.bind_eq_bind, Option.bind_eq_some, Option.pure_def, Option.some.injEq,
      Prod.mk.injEq] at h
    obtain ⟨_, _, _, _, _, _, _, hs, _⟩ := h
    rw [← hs]

theorem executarAcoes_ids_ge (acoes : List Acao) :
    ∀ (s s2 : Estado) (ps : List Peca), executarAcoes acoes s = some (ps, s2) →
      ∀ p ∈ ps, s.proximo_id ≤ p.id := by
  induction acoes with
  | nil =>
    intro s s2 ps h p hp
    simp only [executarAcoes, Option.some.injEq, Prod.mk.injEq] at h
    rw [← h.1] at hp
    simp at hp
  | cons a acoes ih =>
    intro s s2 ps h p hp
    cases a with
    | jogar =>
      simp only [executarAcoes, Option.bind_eq_bind, Option.bind_eq_some, Prod.exists] at h
      obtain ⟨q, s1, out, hd, hx⟩ := h
      have := ih s1 s2 ps hx p hp
      rw [dequeue_proximo hd] at this
      exact this
    | inserir r =>
      simp only [executarAcoes, Option.bind_eq_bind, Option.bind_eq_some, Option.pure_def,
        Option.some.injEq, Prod.mk.injEq, Prod.exists] at h
      obtain ⟨nova, s1, hg, sb, outb, he, ps1, s3, hx, hps, _⟩ := h
      obtain ⟨hid, hprox, _⟩ := gerarPeca_some hg
      rw [← hps, List.mem_cons] at hp
      rcases hp with hp | hp
      · rw [hp, hid]
      · have := ih sb s3 ps1 hx p hp
        rw [enqueue_proximo he, hprox] at this
        omega

theorem exemplo_rejeitada (rs : Nat → Nat) (r1 r2 r3 : Nat) :
    ∃ s0 out0 s1 out1 s2 out2 s3 out3 ps,
      inicializarFila rs inicial = some (s0, out0) ∧
      iteracaoMenu (Entrada.inteiro 2) r1 s0 = some (Passo.continua s1, out1) ∧
      iteracaoMenu (Entrada.inteiro 1) r2 s1 = some (Passo.continua s2, out2) ∧
      iteracaoMenu (Entrada.inteiro 2) r3 s2 = some (Passo.continua s3, out3) ∧
      snapshot s3 = some ps ∧ ps.map Peca.id = [1, 2, 3, 4, 6] := by
  obtain ⟨s0, ps0, hini, hi0, hc0, _, _, hp0, hsnap0, _, hids0⟩ := inicializarFila_ok rs
  obtain ⟨c1, tela1, _, _, _, hit1⟩ :=
    inserir_cheia r1 hi0 hc0 (by unfold INT_MIN; omega) (by unfold INT_MAX; omega)
  have hi1 : Inv { s0 with proximo_id := s0.proximo_id + 1 } := hi0
  obtain ⟨tela2, ht2⟩ := exibirFila_total hi1.1 hi1.2.1
  obtain ⟨s2, hd, hi2, _, _, hc2, hp2, _, hq2⟩ := dequeue_inv hi1 (by simp only; omega)
  have hq1 : conteudo { s0 with proximo_id := s0.proximo_id + 1 } = ps0 := by
    rw [snapshot_eq hi0, Option.some.injEq] at hsnap0
    exact hsnap0
  rw [hq1] at hq2
  subst hq2
  simp only [List.map_cons, List.cons.injEq] at hids0
  simp only at hc2 hp2
  obtain ⟨c3, s2a, s3, _, hg3, he3, hi3, hq3, _⟩ :=
    gerar_enqueue_ok r3 hi2 (by omega) (by omega) (by unfold INT_MAX; omega)
  obtain ⟨tela3, ht3⟩ := exibirFila_total hi2.1 hi2.2.1
  refine ⟨s0, _, _, _, s2, _, s3, _, conteudo s3, hini, hit1, iteracaoMenu_jogar r2 ht2 hd,
    iteracaoMenu_inserir ht3 hg3 he3, snapshot_eq hi3, ?_⟩
  rw [hq3, List.map_append, hids0.2, hp2, hp0]
  rfl

/-- C11. Snapshot traversal: in every state of the queue (every reachable state
and, more generally, every state whose `frente` is a slot of `fila` and whose
`contador` is not negative), the traversal of `exibirFila` visits exactly
`contador` pieces, the `i`-th being `fila[(frente + i) mod 5]`, these are the
pieces it prints, in that order, and the call leaves the globals as they were,
so that a second call prints the same. -/
theorem exibirFila_traversal (s : Estado) (hs : EstadoDaFila s) :
    ∃ pecas out, snapshot s = some pecas ∧ (pecas.length : Int) = s.contador ∧
      (∀ i : Nat, i < pecas.length →
        ler s.fila ((s.frente + i) % 5) = pecas.get? i ∧ (pecas.get? i).isSome) ∧
      exibirFilaChamada s = some (s, out) ∧
      (s.contador ≠ 0 → out = [Msg.tituloEstado, Msg.cabecalho CAPACIDADE_FILA s.contador,
          Msg.indices s.frente s.tras, Msg.rotuloFila]
        ++ pecas.map (fun p => Msg.item p.nome p.id) ++ [Msg.fimDeLinha]) ∧
      ((exibirFilaChamada s).bind fun x => exibirFilaChamada x.1) = some (s, out) := by
  obtain ⟨hf0, hf5, hc⟩ := estadoDaFila_frente hs
  obtain ⟨out, hout⟩ := exibirFila_total hf0 hf5
  have hch : exibirFilaChamada s = some (s, out) := by
    simp only [exibirFilaChamada, hout, Option.bind_eq_bind, Option.some_bind, Option.pure_def]
  have hlen : (conteudo s).length = s.contador.toNat := janela_length _ _ _
  refine ⟨conteudo s, out, snapshot_eq_frente hf0 hf5, by rw [hlen]; omega, ?_, hch, ?_, ?_⟩
  · intro i hi
    rw [hlen] at hi
    have hg : (conteudo s).get? i = some (s.fila (casa (s.frente + i))) :=
      janela_get _ _ _ _ hi
    rw [hg, ler_eq (by omega) (by omega), casa_emod]
    exact ⟨rfl, rfl⟩
  · intro hne
    have := exibirFila_cheia hf0 hf5 hne
    rw [hout] at this
    exact Option.some.inj this
  · rw [hch]
    exact hch

theorem exibirFila_traversal_witness :
    EstadoDaFila exemploCheia ∧
    ∃ pecas out, snapshot exemploCheia = some pecas ∧
      (pecas.length : Int) = exemploCheia.contador ∧
      (∀ i : Nat, i < pecas.length →
        ler exemploCheia.fila ((exemploCheia.frente + i) % 5) = pecas.get? i ∧
          (pecas.get? i).isSome) ∧
      exibirFilaChamada exemploCheia = some (exemploCheia, out) ∧
      (exemploCheia.contador ≠ 0 →
        out = [Msg.tituloEstado, Msg.cabecalho CAPACIDADE_FILA exemploCheia.contador,
          Msg.indices exemploCheia.frente exemploCheia.tras, Msg.rotuloFila]
        ++ pecas.map (fun p => Msg.item p.nome p.id) ++ [Msg.fimDeLinha]) ∧
      ((exibirFilaChamada exemploCheia).bind fun x => exibirFilaChamada x.1) =
        some (exemploCheia, out) :=
  ⟨estadoDaFila_exemploCheia, exibirFila_traversal exemploCheia estadoDaFila_exemploCheia⟩

/-- C12, as stated, fails for the counter value `INT_MAX`, which `main` reaches
after 2147483642 rejected insertions on the full initial queue: there
`proximo_id++` overflows, so `gerarPeca` has no defined result whatever `rand()`
returns, and `proximo_id` cannot become `n + 1`. -/
theorem gerarPeca_counter_max :
    AlcancavelMain exemploMax ∧ exemploMax.proximo_id = INT_MAX ∧
      ∀ r, gerarPeca r exemploMax = none :=
  ⟨alcancavelMain_exemploMax, rfl, gerarPeca_exemploMax⟩

/-- C12 (amended). Piece creation: for every value `r` of `rand()` and every counter
value `n` of type `int` other than `INT_MAX`, `gerarPeca` returns a piece whose
`nome` is the `(r mod 7)`-th element of `tipos`, hence one of the seven tags
and never NUL, and whose `id` is `n`; it sets `proximo_id` to `n + 1` and leaves
the other globals unchanged. -/
theorem gerarPeca_creates (r : Nat) (s : Estado) (hmin : INT_MIN ≤ s.proximo_id)
    (hmax : s.proximo_id < INT_MAX) :
    ∃ c s1, tipos.get? (r % 7) = some c ∧ c ∈ tipos ∧ c ≠ Char.ofNat 0 ∧
      gerarPeca r s = some ({ nome := c, id := s.proximo_id }, s1) ∧
      s1.proximo_id = s.proximo_id + 1 ∧ s1.fila = s.fila ∧ s1.frente = s.frente ∧
      s1.tras = s.tras ∧ s1.contador = s.contador := by
  obtain ⟨c, hget, hm, hg⟩ := gerarPeca_ok r hmin hmax
  exact ⟨c, _, hget, hm, tipos_nao_nulos c hm, hg, rfl, rfl, rfl, rfl, rfl⟩

theorem gerarPeca_creates_witness :
    INT_MIN ≤ exemploCheia.proximo_id ∧ exemploCheia.proximo_id < INT_MAX ∧
    ∃ c s1, tipos.get? (23 % 7) = some c ∧ c ∈ tipos ∧ c ≠ Char.ofNat 0 ∧
      gerarPeca 23 exemploCheia = some ({ nome := c, id := exemploCheia.proximo_id }, s1) ∧
      s1.proximo_id = exemploCheia.proximo_id + 1 ∧ s1.fila = exemploCheia.fila ∧
      s1.frente = exemploCheia.frente ∧ s1.tras = exemploCheia.tras ∧
      s1.contador = exemploCheia.contador :=
  ⟨by decide, by decide, gerarPeca_creates 23 exemploCheia (by decide) (by decide)⟩

/-- C14, as stated, fails on a full queue: option 2 on the full initial queue,
with `rand()` returning 0, prints the rejection notice of line 76 for the piece
`'I' 5` and then also the message of line 183 for the same piece. -/
theorem option2_both_messages :
    exemploCheia.contador = 5 ∧
    ∃ s1 tela, exibirFila exemploCheia = some tela ∧
      iteracaoMenu (Entrada.inteiro 2) 0 exemploCheia =
        some (Passo.continua s1, [Msg.banner] ++ tela ++ [Msg.opcoes] ++
          [Msg.filaCheia 'I' 5, Msg.novaPecaGerada 'I' 5]) :=
  ⟨rfl, _, _, rfl, rfl⟩

/-- C14 (amended). Output of option 2: in every state that satisfies the queue
invariant and whose `proximo_id` is an `int` below `INT_MAX`, the action always
prints the message of line 183 with the tag and id of the generated piece; when
`contador = 5` the rejection notice of line 76 naming the same piece is printed
before it and the queue is unchanged, and when `contador < 5` nothing else is
printed and the piece is appended to the queue. -/
theorem option2_output (s : Estado) (r : Nat) (hi : Inv s) (hmin : INT_MIN ≤ s.proximo_id)
    (hmax : s.proximo_id < INT_MAX) :
    ∃ c s1 tela, tipos.get? (r % 7) = some c ∧ exibirFila s = some tela ∧
      iteracaoMenu (Entrada.inteiro 2) r s =
        some (Passo.continua s1, [Msg.banner] ++ tela ++ [Msg.opcoes] ++
          (if s.contador = 5 then [Msg.filaCheia c s.proximo_id] else []) ++
          [Msg.novaPecaGerada c s.proximo_id]) ∧
      (s.contador = 5 → snapshot s1 = snapshot s) ∧
      (s.contador ≠ 5 →
        snapshot s1 = (snapshot s).map fun ps => ps ++ [Peca.mk c s.proximo_id]) := by
  by_cases hc : s.contador = 5
  · obtain ⟨c, tela, hget, _, ht, hit⟩ := inserir_cheia r hi hc hmin hmax
    refine ⟨c, { s with proximo_id := s.proximo_id + 1 }, tela, hget, ht, ?_, fun _ => rfl,
      fun h => absurd hc h⟩
    rw [hit, if_pos hc]
  · obtain ⟨c, hget, _, hg⟩ := gerarPeca_ok r hmin hmax
    obtain ⟨tela, ht⟩ := exibirFila_total hi.1 hi.2.1
    have hi1 : Inv { s with proximo_id := s.proximo_id + 1 } := hi
    have hlt : s.contador < 5 := by have := hi.2.2.2.2.2.1; omega
    obtain ⟨s2, he, hi2, _, _, _, _, _, hq⟩ := enqueue_inv (Peca.mk c s.proximo_id) hi1 hlt
    refine ⟨c, s2, tela, hget, ht, ?_, fun h => absurd h hc, fun _ => ?_⟩
    · rw [iteracaoMenu_inserir ht hg he, if_neg hc]
    · rw [snapshot_eq hi2, snapshot_eq hi, hq]
      rfl

theorem option2_output_witness :
    Inv exemploUma ∧ INT_MIN ≤ exemploUma.proximo_id ∧ exemploUma.proximo_id < INT_MAX ∧
    ∃ c s1 tela, tipos.get? (9 % 7) = some c ∧ exibirFila exemploUma = some tela ∧
      iteracaoMenu (Entrada.inteiro 2) 9 exemploUma =
        some (Passo.continua s1, [Msg.banner] ++ tela ++ [Msg.opcoes] ++
          (if exemploUma.contador = 5 then [Msg.filaCheia c exemploUma.proximo_id] else []) ++
          [Msg.novaPecaGerada c exemploUma.proximo_id]) ∧
      (exemploUma.contador = 5 → snapshot s1 = snapshot exemploUma) ∧
      (exemploUma.contador ≠ 5 →
        snapshot s1 =
          (snapshot exemploUma).map fun ps => ps ++ [Peca.mk c exemploUma.proximo_id]) :=
  ⟨alcancavel_inv alcancavel_exemploUma, by decide, by decide,
    option2_output exemploUma 9 (alcancavel_inv alcancavel_exemploUma) (by decide) (by decide)⟩

/-- C15, as stated, fails for the empty queue: after the five pieces of the initial
queue have been played, a state `main` reaches, `exibirFila` prints only its
title and the line "Fila Vazia." and returns at line 121, so the rendering shows
neither the capacity, nor the count, nor the indices. -/
theorem exibirFila_empty_rendering :
    AlcancavelMain exemploEsvaziada ∧ exemploEsvaziada.contador = 0 ∧
      exibirFila exemploEsvaziada = some [Msg.tituloEstado, Msg.filaVazia] :=
  ⟨alcancavelMain_exemploEsvaziada, rfl, rfl⟩

/-- C15 (amended). Queue rendering: in every state of the queue (every reachable
state and, more generally, every state whose `frente` is a slot of `fila`),
every menu iteration prints the rendering of `exibirFila` between its banner and
its list of options; when `contador` is not 0 this rendering holds the
capacity, the count, the indices `frente` and `tras` and the tag and id of each
queued piece from head to tail, and when `contador` is 0 it holds only the
title and the empty-queue line. -/
theorem exibirFila_rendering (s : Estado) (hs : EstadoDaFila s) :
    (s.contador ≠ 0 → ∃ pecas, snapshot s = some pecas ∧
      exibirFila s = some ([Msg.tituloEstado, Msg.cabecalho CAPACIDADE_FILA s.contador,
          Msg.indices s.frente s.tras, Msg.rotuloFila]
        ++ pecas.map (fun p => Msg.item p.nome p.id) ++ [Msg.fimDeLinha])) ∧
    (s.contador = 0 → exibirFila s = some [Msg.tituloEstado, Msg.filaVazia]) ∧
    (∀ e r p out, iteracaoMenu e r s = some (p, out) →
      ∃ tela resto, exibirFila s = some tela ∧
        out = [Msg.banner] ++ tela ++ [Msg.opcoes] ++ resto) := by
  obtain ⟨hf0, hf5, _⟩ := estadoDaFila_frente hs
  exact ⟨fun hc => ⟨conteudo s, snapshot_eq_frente hf0 hf5, exibirFila_cheia hf0 hf5 hc⟩,
    fun hc => exibirFila_vazia hc, fun _ _ _ _ h => iteracaoMenu_inicio h⟩

theorem exibirFila_rendering_witness :
    EstadoDaFila exemploCheia ∧ exemploCheia.contador ≠ 0 ∧
    ∃ pecas, snapshot exemploCheia = some pecas ∧
      exibirFila exemploCheia =
        some ([Msg.tituloEstado, Msg.cabecalho CAPACIDADE_FILA exemploCheia.contador,
          Msg.indices exemploCheia.frente exemploCheia.tras, Msg.rotuloFila]
        ++ pecas.map (fun p => Msg.item p.nome p.id) ++ [Msg.fimDeLinha]) :=
  ⟨estadoDaFila_exemploCheia, by decide,
    (exibirFila_rendering exemploCheia estadoDaFila_exemploCheia).1 (by decide)⟩

/-- C16. Structural invariant and index safety: every sequence of `enqueue` and
`dequeue` calls from the initial globals runs to completion and ends in a state
with `0 <= frente < 5`, `-1 <= tras < 5`, `tras = -1` only if no call of
`enqueue` has inserted a piece, and `(tras + 1) mod 5 = (frente + contador) mod 5`;
there the operand of `%` is not negative in `enqueue` (`tras + 1`), in `dequeue`
(`frente + 1`) and in `exibirFila` (`indice + 1`), the index written by `enqueue`
and every index read by `dequeue` and by the loop of `exibirFila` lies in `0..4`,
and the three functions run with defined behaviour. -/
theorem index_safety (ops : List Op) :
    ∃ s ps n, executar ops inicial = some (s, ps) ∧ inseridas ops inicial = some n ∧
      0 ≤ s.frente ∧ s.frente < 5 ∧ -1 ≤ s.tras ∧ s.tras < 5 ∧
      (s.tras = -1 → n = 0) ∧
      (s.tras + 1) % 5 = (s.frente + s.contador) % 5 ∧
      0 ≤ s.tras + 1 ∧ 0 ≤ Int.tmod (s.tras + 1) CAPACIDADE_FILA ∧
      Int.tmod (s.tras + 1) CAPACIDADE_FILA < 5 ∧
      (∀ p, ∃ s1 out, enqueue p s = some (s1, out)) ∧
      0 ≤ s.frente + 1 ∧ (∃ p s1 out, dequeue s = some (p, s1, out)) ∧
      snapshot s = (indicesVisitados s.contador.toNat s.frente).mapM (ler s.fila) ∧
      (∀ i ∈ indicesVisitados s.contador.toNat s.frente, 0 ≤ i ∧ i < 5 ∧ 0 ≤ i + 1) ∧
      ∃ out, exibirFila s = some out := by
  obtain ⟨s, ps, n, hx, hn, hi, ht⟩ := executar_seguro ops inicial inv_inicial
  obtain ⟨hf0, hf5, ht0, ht5, hc0, hc5, hm⟩ := hi
  have hi : Inv s := ⟨hf0, hf5, ht0, ht5, hc0, hc5, hm⟩
  have htm : Int.tmod (s.tras + 1) CAPACIDADE_FILA = (s.tras + 1) % 5 := tmod_cinco (by omega)
  refine ⟨s, ps, n, hx, hn, hf0, hf5, ht0, ht5, ?_, hm, by omega, by omega, by omega, ?_,
    by omega, ?_, percorrer_indices _ _ _, ?_, exibirFila_total hf0 hf5⟩
  · intro h1
    by_cases h0 : 0 < n
    · have := ht (Or.inr h0)
      omega
    · omega
  · intro p
    obtain ⟨s1, out, he, _⟩ := enqueue_total p hi
    exact ⟨s1, out, he⟩
  · obtain ⟨p, s1, out, hd, _⟩ := dequeue_total hi
    exact ⟨p, s1, out, hd⟩
  · intro i hmem
    have := indicesVisitados_bound _ _ hf0 hf5 i hmem
    exact ⟨this.1, this.2, by omega⟩

/-- C17. Driver invariant: in every state that `main` reaches, the snapshot is
defined, its ids increase strictly from head to tail, each id satisfies
`0 <= id < proximo_id`, no queued piece is the null piece (its id is not -1 and
its tag is not NUL), and the queued ids are pairwise distinct. -/
theorem main_ids_increasing (s : Estado) (h : AlcancavelMain s) :
    ∃ ps, snapshot s = some ps ∧ List.Pairwise (fun a b : Int => a < b) (ps.map Peca.id) ∧
      (∀ p ∈ ps, 0 ≤ p.id ∧ p.id < s.proximo_id ∧ p.id ≠ -1 ∧
        p.nome ≠ Char.ofNat 0 ∧ p ≠ pecaNula) ∧
      (ps.map Peca.id).Nodup := by
  obtain ⟨hi, _, hids, hpw⟩ := alcancavelMain_inv h
  have hpw1 : List.Pairwise (fun a b : Int => a < b) ((conteudo s).map Peca.id) :=
    List.pairwise_map.mpr hpw
  refine ⟨conteudo s, snapshot_eq hi, hpw1, ?_, ?_⟩
  · intro p hp
    obtain ⟨h0, h1, h2⟩ := hids p hp
    refine ⟨h0, h1, by omega, tipos_nao_nulos _ h2, ?_⟩
    intro e
    rw [e] at h0
    exact absurd h0 (by decide)
  · exact hpw1.imp (fun hab => ne_of_lt hab)

theorem main_ids_increasing_witness :
    AlcancavelMain exemploCheia ∧
    ∃ ps, snapshot exemploCheia = some ps ∧
      List.Pairwise (fun a b : Int => a < b) (ps.map Peca.id) ∧
      (∀ p ∈ ps, 0 ≤ p.id ∧ p.id < exemploCheia.proximo_id ∧ p.id ≠ -1 ∧
        p.nome ≠ Char.ofNat 0 ∧ p ≠ pecaNula) ∧
      (ps.map Peca.id).Nodup :=
  ⟨alcancavelMain_exemploCheia, main_ids_increasing exemploCheia alcancavelMain_exemploCheia⟩

/-- C18, as stated, fails in the driver state with a full queue and
`proximo_id = INT_MAX`, which `main` reaches after 2147483642 rejected insertions:
there option 2 cannot add one to `proximo_id`, the call of `gerarPeca` overflows
and the iteration has no defined result, whatever `rand()` returns. -/
theorem option2_counter_max :
    AlcancavelMain exemploMax ∧ exemploMax.contador = 5 ∧
      exemploMax.proximo_id = 2147483647 ∧
      ∀ r, iteracaoMenu (Entrada.inteiro 2) r exemploMax = none := by
  refine ⟨alcancavelMain_exemploMax, rfl, rfl, fun r => ?_⟩
  have ht : exibirFila exemploMax = exibirFila exemploCheia := rfl
  have hf0 : 0 ≤ exemploCheia.frente := by decide
  have hf5 : exemploCheia.frente < 5 := by decide
  obtain ⟨tela, htela⟩ := exibirFila_total hf0 hf5
  simp [iteracaoMenu, ht, htela, gerarPeca_exemploMax r, converter_dois]

/-- C18 (amended). Id consumption on rejection: in every state that `main` reaches
with `contador = 5` and `proximo_id < INT_MAX`, option 2 prints the rejection
notice for a piece whose id is the old `proximo_id`, leaves `fila`, `frente`,
`tras` and `contador` unchanged and adds exactly one to `proximo_id`; that id is
not in the queue and every piece created later has a larger id, so it is never
reused, and queued ids need not be consecutive: from the fresh queue the
actions 2, 1, 2 give the snapshot ids 1, 2, 3, 4, 6. -/
theorem rejected_insertion_consumes_id (s : Estado) (r : Nat) (h : AlcancavelMain s)
    (hc : s.contador = 5) (hmax : s.proximo_id < INT_MAX) :
    (∃ c s1 out, iteracaoMenu (Entrada.inteiro 2) r s = some (Passo.continua s1, out) ∧
      Msg.filaCheia c s.proximo_id ∈ out ∧
      s1.fila = s.fila ∧ s1.frente = s.frente ∧ s1.tras = s.tras ∧
      s1.contador = s.contador ∧ s1.proximo_id = s.proximo_id + 1 ∧
      (∀ ps, snapshot s1 = some ps → ∀ p ∈ ps, p.id ≠ s.proximo_id) ∧
      (∀ acoes ps s2, executarAcoes acoes s1 = some (ps, s2) →
        ∀ p ∈ ps, s.proximo_id < p.id)) ∧
    (∀ (rs : Nat → Nat) (r1 r2 r3 : Nat), ∃ s0 out0 s1 out1 s2 out2 s3 out3 ps,
      inicializarFila rs inicial = some (s0, out0) ∧
      iteracaoMenu (Entrada.inteiro 2) r1 s0 = some (Passo.continua s1, out1) ∧
      iteracaoMenu (Entrada.inteiro 1) r2 s1 = some (Passo.continua s2, out2) ∧
      iteracaoMenu (Entrada.inteiro 2) r3 s2 = some (Passo.continua s3, out3) ∧
      snapshot s3 = some ps ∧ ps.map Peca.id = [1, 2, 3, 4, 6]) := by
  obtain ⟨hi, hp0, hids, _⟩ := alcancavelMain_inv h
  obtain ⟨c, tela, _, _, _, hit⟩ := inserir_cheia r hi hc (by unfold INT_MIN; omega) hmax
  refine ⟨⟨c, { s with proximo_id := s.proximo_id + 1 }, _, hit, by simp, rfl, rfl, rfl, rfl,
    rfl, ?_, ?_⟩, exemplo_rejeitada⟩
  · intro ps hps p hp
    have hs : snapshot s = some ps := hps
    rw [snapshot_eq hi, Option.some.injEq] at hs
    rw [← hs] at hp
    have := (hids p hp).2.1
    omega
  · intro acoes ps s2 hx p hp
    have := executarAcoes_ids_ge acoes _ s2 ps hx p hp
    simp only at this
    omega

theorem rejected_insertion_consumes_id_witness :
    AlcancavelMain exemploCheia ∧ exemploCheia.contador = 5 ∧
    exemploCheia.proximo_id < INT_MAX ∧
    ∃ c s1 out, iteracaoMenu (Entrada.inteiro 2) 3 exemploCheia =
        some (Passo.continua s1, out) ∧
      Msg.filaCheia c exemploCheia.proximo_id ∈ out ∧
      s1.fila = exemploCheia.fila ∧ s1.frente = exemploCheia.frente ∧
      s1.tras = exemploCheia.tras ∧ s1.contador = exemploCheia.contador ∧
      s1.proximo_id = exemploCheia.proximo_id + 1 ∧
      (∀ ps, snapshot s1 = some ps → ∀ p ∈ ps, p.id ≠ exemploCheia.proximo_id) ∧
      (∀ acoes ps s2, executarAcoes acoes s1 = some (ps, s2) →
        ∀ p ∈ ps, exemploCheia.proximo_id < p.id) :=
  ⟨alcancavelMain_exemploCheia, rfl, by decide,
    (rejected_insertion_consumes_id exemploCheia 3 alcancavelMain_exemploCheia rfl
      (by decide)).1⟩

end Tetris
